import Mathlib

/-!
Verification development for the Nodo repository.

Part I of the definitions embeds the Python tooling found under
`tools/generate_node_docs.py` and `scripts/refactor_mainwindow.py`: the
regex-based extraction routines are translated into deterministic scanners
over `List Char` (the regexes involved are free of genuine backtracking
except in documented places, which are modelled exactly), and the Markdown
rendering into pure list-of-lines builders.  A few length lemmas appear
among the definitions because the scanners recurse on the text that
remains after a match and need them for termination.

Part II models the node-graph evaluation engine described by the design
document (parameter validation, connection/cycle checking, and the
memoized cook evaluator).  That engine's implementation is not part of the
repository snapshot, so those definitions are modelled from the spec, as
marked in their doc comments.

The theorems follow all definitions.
-/

/-- Text is modelled as a list of characters. -/
abbrev Str := List Char

/-- Shorthand turning a Lean string literal into `Str`. -/
def str (s : String) : Str := s.toList

/-- Python `\s` on ASCII text: space, tab, newline, carriage return,
vertical tab and form feed. -/
def pyIsSpace (c : Char) : Bool :=
  c = ' ' || c = '\t' || c = '\n' || c = '\r' || c = '\x0b' || c = '\x0c'

/-- Python `\w` on ASCII text: alphanumerics and underscore. -/
def isWordChar (c : Char) : Bool := c.isAlphanum || c = '_'

/-- Python `str.strip()`: remove leading and trailing whitespace. -/
def pyStrip (s : Str) : Str :=
  ((s.dropWhile pyIsSpace).reverse.dropWhile pyIsSpace).reverse

/-- Python `str.strip('"')`: remove leading and trailing double quotes. -/
def pyStripQuotes (s : Str) : Str :=
  ((s.dropWhile (· = '"')).reverse.dropWhile (· = '"')).reverse

/-- Python `str.title()` on ASCII text: an alphabetic character is
uppercased when the previous character is not alphabetic and lowercased
otherwise; other characters pass through and reset the word boundary. -/
def pyTitleAux : Bool → Str → Str
  | _, [] => []
  | prevCased, c :: cs =>
    let cased := c.isAlpha
    (if cased then (if prevCased then c.toLower else c.toUpper) else c)
      :: pyTitleAux cased cs

/-- Python `str.title()` entry point (no preceding cased character). -/
def pyTitle (s : Str) : Str := pyTitleAux false s

/-- `startsWith lit s` holds when `lit` is an initial segment of `s`. -/
def startsWith : Str → Str → Bool
  | [], _ => true
  | _ :: _, [] => false
  | a :: as, b :: bs => a = b && startsWith as bs

/-- Remove the literal `lit` from the front of `s`, or fail. -/
def dropLit : Str → Str → Option Str
  | [], s => some s
  | _ :: _, [] => none
  | a :: as, b :: bs => if a = b then dropLit as bs else none

theorem dropLit_eq_some {lit s r : Str} :
    dropLit lit s = some r ↔ s = lit ++ r := by
  induction lit generalizing s with
  | nil => cases s <;> simp [dropLit]
  | cons a as ih =>
    cases s with
    | nil => simp [dropLit]
    | cons b bs =>
      by_cases hab : a = b
      · subst hab
        simp [dropLit, ih]
      · simp only [dropLit, if_neg hab, List.cons_append]
        constructor
        · intro h
          cases h
        · intro h
          exact absurd (List.cons.inj h).1.symm hab

theorem dropLit_self_append (lit r : Str) : dropLit lit (lit ++ r) = some r :=
  dropLit_eq_some.mpr rfl

/-- Split `s` at the first occurrence of the literal `lit` (which must be
non-empty at every use site), returning the text before the occurrence and
the text after it. -/
def splitOnLit (lit : Str) : Str → Option (Str × Str)
  | [] => none
  | c :: cs =>
    match dropLit lit (c :: cs) with
    | some rest => some ([], rest)
    | none =>
      match splitOnLit lit cs with
      | some (a, b) => some (c :: a, b)
      | none => none

/-- `NodeMetadata` dataclass: metadata for a single node type. -/
structure NodeMetadata where
  type : Str
  name : Str
  category : Str
  description : Str
deriving DecidableEq, Repr

/-- `Parameter` dataclass: a node parameter definition. -/
structure Parameter where
  name : Str
  type : Str
  label : Str
  default : Option Str
  range_min : Option Str
  range_max : Option Str
  options : List Str
  category : Str
  description : Str
deriving DecidableEq, Repr

/-- `InputConfig` dataclass: node input configuration. -/
structure InputConfig where
  input_type : Str
  min_inputs : Int
  max_inputs : Int
  required : Int
deriving DecidableEq, Repr

/-- Decimal rendering of an integer, as Python `str(int)` and Lean's
`toString` both produce. -/
def intStr (i : Int) : Str := (toString i).toList

/-- The `## Inputs` section of `generate_node_doc` (the `md.append` calls
from the `## Inputs` header through the following blank line). -/
def inputsSection (ic : InputConfig) : List Str :=
  [str "## Inputs", str ""] ++
    (if ic.input_type = str "NONE" then
      [str "This node generates geometry and requires no inputs."]
    else if ic.input_type = str "SINGLE" then
      [str "- **Input 0**: Geometry to process"]
    else if ic.input_type = str "MULTIPLE" then
      if ic.max_inputs = -1 then
        [str "- **Inputs**: Accepts " ++ intStr ic.min_inputs ++
          str "+ geometry inputs"]
      else
        [str "- **Inputs**: Accepts " ++ intStr ic.min_inputs ++ str "-" ++
          intStr ic.max_inputs ++ str " geometry inputs"]
    else []) ++ [str ""]

/-- Match `LIT([^"]+)")` at the head of `s` for a fluent literal such as
`.label("`; returns the capture. -/
def tryFluentAt (lit : Str) (s : Str) : Option Str :=
  match dropLit lit s with
  | none => none
  | some s1 =>
    let cap := s1.takeWhile (· ≠ '"')
    if cap.isEmpty then none
    else
      match s1.dropWhile (· ≠ '"') with
      | '"' :: ')' :: _ => some cap
      | _ => none

/-- `re.search` driver for `tryFluentAt`: try every position, leftmost
match wins. -/
def searchFluent (lit : Str) : Str → Option Str
  | [] => none
  | c :: cs =>
    match tryFluentAt lit (c :: cs) with
    | some r => some r
    | none => searchFluent lit cs

/-- The tail `\s*([^)]+)\)` of several patterns, applied at the head of
`s`: succeeds when a non-empty `)`-free run precedes a `)`; the capture
drops the leading whitespace eaten by the greedy `\s*`, except that when
the run is all whitespace the engine backtracks one character and the
capture is the run's last character. -/
def wsGroupCloseAt (s : Str) : Option Str :=
  let u := s.takeWhile (· ≠ ')')
  if u.isEmpty then none
  else
    match s.dropWhile (· ≠ ')') with
    | ')' :: _ =>
      let v := u.dropWhile pyIsSpace
      some (if v.isEmpty then [u.getLastD ' '] else v)
    | _ => none

/-- Match `\.range\(([^,]+),\s*([^)]+)\)` at the head of `s`. -/
def tryRangeAt (s : Str) : Option (Str × Str) :=
  match dropLit (str ".range(") s with
  | none => none
  | some s1 =>
    let g1 := s1.takeWhile (· ≠ ',')
    if g1.isEmpty then none
    else
      match s1.dropWhile (· ≠ ',') with
      | ',' :: s2 =>
        match wsGroupCloseAt s2 with
        | some g2 => some (g1, g2)
        | none => none
      | _ => none

/-- `re.search` driver for `tryRangeAt`. -/
def searchRange : Str → Option (Str × Str)
  | [] => none
  | c :: cs =>
    match tryRangeAt (c :: cs) with
    | some r => some r
    | none => searchRange cs

/-- Match `\.options\(\{([^}]+)\}\)` at the head of `s`. -/
def tryOptionsAt (s : Str) : Option Str :=
  match dropLit (str ".options(\x7b") s with
  | none => none
  | some s1 =>
    let cap := s1.takeWhile (· ≠ '\x7d')
    if cap.isEmpty then none
    else
      match s1.dropWhile (· ≠ '\x7d') with
      | '\x7d' :: ')' :: _ => some cap
      | _ => none

/-- `re.search` driver for `tryOptionsAt`. -/
def searchOptions : Str → Option Str
  | [] => none
  | c :: cs =>
    match tryOptionsAt (c :: cs) with
    | some r => some r
    | none => searchOptions cs

/-- The alternation `(int|float|bool|string)_parameter\("`, tried in the
pattern's priority order; returns the kind capture and the rest. -/
def tryKindAt (s : Str) : Option (Str × Str) :=
  match dropLit (str "int_parameter(\"") s with
  | some r => some (str "int", r)
  | none =>
    match dropLit (str "float_parameter(\"") s with
    | some r => some (str "float", r)
    | none =>
      match dropLit (str "bool_parameter(\"") s with
      | some r => some (str "bool", r)
      | none =>
        match dropLit (str "string_parameter(\"") s with
        | some r => some (str "string", r)
        | none => none

/-- Match `define_(int|float|bool|string)_parameter\("([^"]+)",\s*([^)]+)\)`
at the head of `s`; returns kind, name and default captures. -/
def tryDefineAt (s : Str) : Option (Str × Str × Str) :=
  match dropLit (str "define_") s with
  | none => none
  | some s0 =>
    match tryKindAt s0 with
    | none => none
    | some (kind, s1) =>
      let nm := s1.takeWhile (· ≠ '"')
      if nm.isEmpty then none
      else
        match s1.dropWhile (· ≠ '"') with
        | '"' :: ',' :: s2 =>
          match wsGroupCloseAt s2 with
          | some dflt => some (kind, nm, dflt)
          | none => none
        | _ => none

/-- `re.search` driver for `tryDefineAt`. -/
def searchDefine : Str → Option (Str × Str × Str)
  | [] => none
  | c :: cs =>
    match tryDefineAt (c :: cs) with
    | some r => some r
    | none => searchDefine cs

/-- `_parse_parameter_block`: parse one `register_parameter` block body. -/
def parseParameterBlock (block : Str) : Option Parameter :=
  match searchDefine block with
  | none => none
  | some (ptype, pname, pdflt) =>
    let label := (searchFluent (str ".label(\"") block).getD (pyTitle pname)
    let rng := searchRange block
    let range_min := rng.map (fun g => pyStrip g.1)
    let range_max := rng.map (fun g => pyStrip g.2)
    let options :=
      match searchOptions block with
      | some ostr => (ostr.splitOn ',').map (fun o => pyStripQuotes (pyStrip o))
      | none => []
    let category := (searchFluent (str ".category(\"") block).getD (str "General")
    let description := (searchFluent (str ".description(\"") block).getD []
    some ⟨pname, ptype, label, some pdflt, range_min, range_max, options,
      category, description⟩

/-- Python `int` on a string of decimal digits. -/
def digitsToNat (s : Str) : Nat :=
  s.foldl (fun n c => n * 10 + (c.toNat - '0'.toNat)) 0

/-- The tail `\s*(\d+),` (or closing `\s*(\d+)\)`) of the `InputConfig`
pattern: whitespace, then a non-empty digit run, then the given
terminator character. -/
def wsDigitsAt (term : Char) (s : Str) : Option (Str × Str) :=
  let s' := s.dropWhile pyIsSpace
  let d := s'.takeWhile Char.isDigit
  if d.isEmpty then none
  else
    match s'.dropWhile Char.isDigit with
    | c :: rest => if c = term then some (d, rest) else none
    | [] => none

/-- Match `InputConfig\(InputType::(\w+),\s*(\d+),\s*(\d+),\s*(\d+)\)` at
the head of `s`. -/
def tryInputCfgAt (s : Str) : Option (Str × Str × Str × Str) :=
  match dropLit (str "InputConfig(InputType::") s with
  | none => none
  | some s0 =>
    let w := s0.takeWhile isWordChar
    if w.isEmpty then none
    else
      match s0.dropWhile isWordChar with
      | ',' :: s1 =>
        match wsDigitsAt ',' s1 with
        | some (d1, s2) =>
          match wsDigitsAt ',' s2 with
          | some (d2, s3) =>
            match wsDigitsAt ')' s3 with
            | some (d3, _) => some (w, d1, d2, d3)
            | none => none
          | none => none
        | none => none
      | _ => none

/-- `re.search` driver for `tryInputCfgAt`. -/
def searchInputCfg : Str → Option (Str × Str × Str × Str)
  | [] => none
  | c :: cs =>
    match tryInputCfgAt (c :: cs) with
    | some r => some r
    | none => searchInputCfg cs

/-- `_extract_input_config`: first `InputConfig(...)` occurrence, or the
single-input-modifier default when the pattern never matches. -/
def extractInputConfig (content : Str) : InputConfig :=
  match searchInputCfg content with
  | some (w, d1, d2, d3) =>
    ⟨w, (digitsToNat d1 : Int), (digitsToNat d2 : Int), (digitsToNat d3 : Int)⟩
  | none => ⟨str "SINGLE", 1, 1, 1⟩

theorem dropLit_some_length {lit s r : Str} (h : dropLit lit s = some r) :
    r.length + lit.length = s.length := by
  rw [dropLit_eq_some] at h
  subst h
  simp [List.length_append]
  omega

theorem splitOnLit_some {lit : Str} :
    ∀ {s a b : Str}, splitOnLit lit s = some (a, b) → s = a ++ lit ++ b := by
  intro s
  induction s with
  | nil => intro a b h; simp [splitOnLit] at h
  | cons c cs ih =>
    intro a b h
    rw [splitOnLit] at h
    rcases hd : dropLit lit (c :: cs) with _ | rest
    · rw [hd] at h
      rcases hs : splitOnLit lit cs with _ | ⟨a', b'⟩
      · rw [hs] at h; cases h
      · rw [hs] at h
        cases h
        have := ih hs
        simp [this]
    · rw [hd] at h
      cases h
      have := dropLit_eq_some.mp hd
      simp [this]

/-- Match `\s*"([^"]+)"` at the head of `s`; returns the capture and the
rest after the closing quote. -/
def quotedAt (s : Str) : Option (Str × Str) :=
  match s.dropWhile pyIsSpace with
  | [] => none
  | c :: s1 =>
    if c = '"' then
      if (s1.takeWhile (· ≠ '"')).isEmpty then none
      else
        match s1.dropWhile (· ≠ '"') with
        | [] => none
        | c2 :: rest => if c2 = '"' then some (s1.takeWhile (· ≠ '"'), rest)
          else none
    else none

theorem dropWhileLenLe (s : List Char) (p : Char → Bool) :
    (s.dropWhile p).length ≤ s.length :=
  (List.dropWhile_suffix p).sublist.length_le

theorem quotedAt_some_length {s cap rest : Str}
    (h : quotedAt s = some (cap, rest)) : rest.length + 2 ≤ s.length := by
  unfold quotedAt at h
  split at h
  · cases h
  case _ c s1 heq1 =>
    split at h
    case isFalse => cases h
    case isTrue hc =>
      subst hc
      split at h
      · cases h
      · split at h
        · cases h
        case _ c2 rest' heq2 =>
          split at h
          case isFalse => cases h
          case isTrue hc2 =>
            subst hc2
            cases h
            have l1 : ('"' :: s1).length ≤ s.length :=
              heq1 ▸ dropWhileLenLe s pyIsSpace
            have l2 : ('"' :: rest).length ≤ s1.length :=
              heq2 ▸ dropWhileLenLe s1 (· ≠ '"')
            simp at l1 l2
            omega

/-- Match the full metadata pattern
`\{NodeType::(\w+),\s*"([^"]+)",\s*"([^"]+)",\s*"([^"]+)"\}` at the head of
`s`; returns the record and the rest of the text after the match. -/
def tryNodeAt (s : Str) : Option (NodeMetadata × Str) :=
  match dropLit (str "\x7bNodeType::") s with
  | none => none
  | some s0 =>
    let t := s0.takeWhile isWordChar
    if t.isEmpty then none
    else
      match s0.dropWhile isWordChar with
      | [] => none
      | c1 :: s1 =>
        if c1 = ',' then
          match quotedAt s1 with
          | none => none
          | some (n, r1) =>
            match r1 with
            | [] => none
            | c2 :: s2 =>
              if c2 = ',' then
                match quotedAt s2 with
                | none => none
                | some (cg, r2) =>
                  match r2 with
                  | [] => none
                  | c3 :: s3 =>
                    if c3 = ',' then
                      match quotedAt s3 with
                      | none => none
                      | some (d, r3) =>
                        match r3 with
                        | [] => none
                        | c4 :: rest =>
                          if c4 = '\x7d' then some (⟨t, n, cg, d⟩, rest)
                          else none
                    else none
              else none
        else none

theorem tryNodeAt_some_length {s : Str} {m : NodeMetadata} {rest : Str}
    (h : tryNodeAt s = some (m, rest)) : rest.length < s.length := by
  unfold tryNodeAt at h
  split at h
  · cases h
  rename_i s0 heq0
  dsimp only at h
  split at h
  · cases h
  rename_i htne
  split at h
  · cases h
  rename_i c1 s1 heq1
  split at h
  case isFalse => cases h
  rename_i hc1
  split at h
  · cases h
  rename_i n r1 hq1
  split at h
  · cases h
  rename_i c2 s2
  split at h
  case isFalse => cases h
  rename_i hc2
  split at h
  · cases h
  rename_i cg r2 hq2
  split at h
  · cases h
  rename_i c3 s3
  split at h
  case isFalse => cases h
  rename_i hc3
  split at h
  · cases h
  rename_i d r3 hq3
  split at h
  · cases h
  rename_i c4 rest2
  split at h
  case isFalse => cases h
  rename_i hc4
  cases h
  have e0 := dropLit_some_length heq0
  have l1 : (c1 :: s1).length ≤ s0.length := heq1 ▸ dropWhileLenLe s0 isWordChar
  have q1 := quotedAt_some_length hq1
  have q2 := quotedAt_some_length hq2
  have q3 := quotedAt_some_length hq3
  simp [str] at e0
  simp at l1 q1 q2 q3
  omega

/-- `parse_sop_factory`'s `re.findall`: scan the factory source left to
right, emitting one `NodeMetadata` per match and resuming after each
match's end. -/
def parseSopFactory (s : Str) : List NodeMetadata :=
  match s with
  | [] => []
  | c :: cs =>
    match h : tryNodeAt (c :: cs) with
    | some (m, rest) => m :: parseSopFactory rest
    | none => parseSopFactory cs
termination_by s.length
decreasing_by
  · exact tryNodeAt_some_length h
  · simp

/-- `_extract_parameters`' `re.findall` for `register_parameter\((.*?)\);`:
scan left to right; at each match the non-greedy group reaches the nearest
following `);`, and scanning resumes after it. -/
def extractParamBlocks (s : Str) : List Str :=
  match s with
  | [] => []
  | c :: cs =>
    match h1 : dropLit (str "register_parameter(") (c :: cs) with
    | some rest =>
      match h2 : splitOnLit (str ");") rest with
      | some (inner, after) => inner :: extractParamBlocks after
      | none => extractParamBlocks cs
    | none => extractParamBlocks cs
termination_by s.length
decreasing_by
  · have e1 := dropLit_some_length h1
    have e2 := splitOnLit_some h2
    have : rest.length = inner.length + 2 + after.length := by
      rw [e2]; simp [str, List.length_append]; omega
    simp [str] at e1
    simp
    omega
  · simp
  · simp

/-- `_extract_parameters`: every block, parsed; blocks the parser rejects
are silently omitted. -/
def extractParameters (content : Str) : List Parameter :=
  (extractParamBlocks content).filterMap parseParameterBlock

/-- Python `str.lower()` on ASCII text. -/
def pyLower (s : Str) : Str := s.map Char.toLower

/-- `parse_sop_header`: the file system is modelled as a partial map from
header file name to content.  A missing header yields the `UNKNOWN`
fallback; otherwise parameters and input configuration are extracted from
the content. -/
def parseSopHeader (fs : Str → Option Str) (nodeType : Str) :
    List Parameter × InputConfig :=
  match fs (pyLower nodeType ++ str "_sop.hpp") with
  | none => ([], ⟨str "UNKNOWN", 0, 0, 0⟩)
  | some content => (extractParameters content, extractInputConfig content)

/-- Python truthiness of an `Optional[str]`. -/
def pyTruthy : Option Str → Bool
  | none => false
  | some s => !s.isEmpty

/-- Python `sep.join(items)`. -/
def joinSep (sep : Str) : List Str → Str
  | [] => []
  | [x] => x
  | x :: y :: xs => x ++ sep ++ joinSep sep (y :: xs)

/-- The insertion-ordered `by_category` dictionary of `generate_node_doc`:
appending a parameter to its category's bucket, creating the bucket at the
end on first use. -/
def addToGroup (acc : List (Str × List Parameter)) (p : Parameter) :
    List (Str × List Parameter) :=
  match acc with
  | [] => [(p.category, [p])]
  | (c, ps) :: rest =>
    if c = p.category then (c, ps ++ [p]) :: rest
    else (c, ps) :: addToGroup rest p

/-- Group parameters by category, preserving declaration order inside each
bucket and first-declaration order of the buckets. -/
def groupByCategory (ps : List Parameter) : List (Str × List Parameter) :=
  ps.foldl addToGroup []

/-- The `details` bullet of one parameter (lines building `details` and the
trailing `- ...` line): default, range and options entries, each guarded by
Python truthiness. -/
def paramDetails (p : Parameter) : List Str :=
  (if pyTruthy p.default then
    [str "Default: `" ++ p.default.getD [] ++ str "`"] else []) ++
  (if pyTruthy p.range_min && pyTruthy p.range_max then
    [str "Range: `" ++ p.range_min.getD [] ++ str "` to `" ++
      p.range_max.getD [] ++ str "`"] else []) ++
  (if !p.options.isEmpty then
    [str "Options: " ++
      joinSep (str ", ") (p.options.map (fun o => str "`" ++ o ++ str "`"))]
  else [])

/-- The Markdown lines for one parameter inside a category group. -/
def paramEntry (p : Parameter) : List Str :=
  [str "**" ++ p.label ++ str "** (`" ++ p.type ++ str "`)", str ""] ++
  (if !p.description.isEmpty then [p.description, str ""] else []) ++
  (if !(paramDetails p).isEmpty then
    [str "- " ++ joinSep (str " | ") (paramDetails p), str ""] else [])

/-- The Markdown lines of one category group: heading then each parameter
in bucket order. -/
def categoryLines (c : Str) (ps : List Parameter) : List Str :=
  [str "### " ++ c, str ""] ++ (ps.map paramEntry).flatten

/-- The `## Parameters` section: present only when parameters exist, one
group per `by_category` bucket in bucket order. -/
def paramsSection (parameters : List Parameter) : List Str :=
  if parameters.isEmpty then []
  else
    [str "## Parameters", str ""] ++
      ((groupByCategory parameters).map (fun g => categoryLines g.1 g.2)).flatten

/-- `_generate_example`. -/
def generateExample (node : NodeMetadata) : Str :=
  if node.category = str "Generator" then
    str "Create a " ++ node.name ++
      str " node from the Node Library panel. Adjust parameters to customize the generated geometry."
  else if node.category = str "Modifier" then
    str "Connect geometry to the input, then adjust parameters to modify the result."
  else if node.category = str "Boolean" then
    str "Connect multiple geometry inputs to perform " ++ pyLower node.name ++
      str " operations."
  else
    str "Add a " ++ node.name ++ str " node and connect appropriate inputs."

/-- The `related_map` dictionary of `_generate_see_also`. -/
def relatedMap : List (Str × List Str) :=
  [(str "Sphere", [str "Box", str "Cylinder", str "Torus"]),
   (str "Box", [str "Sphere", str "Cylinder", str "Grid"]),
   (str "Transform", [str "Array", str "Mirror", str "Align"]),
   (str "Extrude", [str "PolyExtrude", str "Bevel"]),
   (str "Boolean", [str "Merge", str "Split"]),
   (str "Group", [str "Group Delete", str "Group Combine", str "Blast"])]

/-- Association-list lookup (Python dict `.get` with default). -/
def lookupStr {α : Type} (k : Str) : List (Str × α) → Option α
  | [] => none
  | (k', v) :: rest => if k = k' then some v else lookupStr k rest

/-- Python `str.replace(' ', '_')`. -/
def spaceToUnderscore (s : Str) : Str :=
  s.map (fun c => if c = ' ' then '_' else c)

/-- `_generate_see_also`. -/
def generateSeeAlso (node : NodeMetadata) : Str :=
  let related := (lookupStr node.name relatedMap).getD []
  if related.isEmpty then str "*No related nodes*"
  else
    str "- " ++
      joinSep (str "\n- ")
        (related.map (fun name =>
          str "[" ++ name ++ str "](" ++ spaceToUnderscore (pyLower name) ++
            str ".md)"))

/-- `generate_node_doc`: the full Markdown document for one node. -/
def generateNodeDoc (fs : Str → Option Str) (node : NodeMetadata) : Str :=
  let parsed := parseSopHeader fs node.type
  joinSep (str "\n")
    ([str "# " ++ node.name, str "",
      str "**Category:** " ++ node.category, str "",
      str "## Description", str "", node.description, str ""] ++
     inputsSection parsed.2 ++
     paramsSection parsed.1 ++
     [str "## Example Usage", str "", generateExample node, str "",
      str "## See Also", str "", generateSeeAlso node, str ""])

/-- The declarative reading of the `InputConfig` regex: the content contains
an occurrence of
`InputConfig(InputType::<word>,\s*<digits>,\s*<digits>,\s*<digits>)`. -/
def InputCfgShape (content : Str) : Prop :=
  ∃ pre w ws1 d1 ws2 d2 ws3 d3 post : Str,
    content = pre ++ str "InputConfig(InputType::" ++ w ++ str "," ++ ws1 ++
      d1 ++ str "," ++ ws2 ++ d2 ++ str "," ++ ws3 ++ d3 ++ str ")" ++ post ∧
    w ≠ [] ∧ (∀ c ∈ w, isWordChar c = true) ∧
    (∀ c ∈ ws1, pyIsSpace c = true) ∧ d1 ≠ [] ∧ (∀ c ∈ d1, c.isDigit = true) ∧
    (∀ c ∈ ws2, pyIsSpace c = true) ∧ d2 ≠ [] ∧ (∀ c ∈ d2, c.isDigit = true) ∧
    (∀ c ∈ ws3, pyIsSpace c = true) ∧ d3 ≠ [] ∧ (∀ c ∈ d3, c.isDigit = true)

/-- The declarative reading of the parameter-declaration regex: the block
contains `define_<kind>_parameter("<name>", <default>)` with `<kind>` one
of the four value kinds. -/
def DefineShape (block : Str) : Prop :=
  ∃ pre kind nm mid post : Str,
    block = pre ++ str "define_" ++ kind ++ str "_parameter(\"" ++ nm ++
      str "\"," ++ mid ++ str ")" ++ post ∧
    (kind = str "int" ∨ kind = str "float" ∨ kind = str "bool" ∨
      kind = str "string") ∧
    nm ≠ [] ∧ (∀ c ∈ nm, ¬ c = '"') ∧ mid ≠ [] ∧ (∀ c ∈ mid, ¬ c = ')')

/-- One occurrence of the factory metadata pattern, rendered with its
whitespace runs. -/
def nodeEntry (m : NodeMetadata) (w1 w2 w3 : Str) : Str :=
  str "\x7bNodeType::" ++ m.type ++ str "," ++ w1 ++ str "\"" ++ m.name ++
    str "\"," ++ w2 ++ str "\"" ++ m.category ++ str "\"," ++ w3 ++
    str "\"" ++ m.description ++ str "\"\x7d"

/-- A non-empty text without double quotes, fit for a `[^"]+` capture. -/
abbrev WfField (f : Str) : Prop := f ≠ [] ∧ ∀ c ∈ f, ¬ c = '"'

/-- Whitespace run, fit for `\s*`. -/
abbrev WfWs (w : Str) : Prop := ∀ c ∈ w, pyIsSpace c = true

/-- Metadata whose four fields can be produced by the factory pattern. -/
abbrev WfMeta (m : NodeMetadata) : Prop :=
  m.type ≠ [] ∧ (∀ c ∈ m.type, isWordChar c = true) ∧
  WfField m.name ∧ WfField m.category ∧ WfField m.description

/-- A factory source text: a leading separator, then one rendered metadata
entry followed by a separator, repeatedly. -/
def factoryText : List ((NodeMetadata × Str × Str × Str) × Str) → Str
  | [] => []
  | ((m, w1, w2, w3), sep) :: rest =>
    nodeEntry m w1 w2 w3 ++ sep ++ factoryText rest

/-- Well-formedness of one entry-separator pair: pattern-compatible fields,
whitespace runs, and a separator free of `\x7b` (so no match can begin
inside it). -/
abbrev WfItem : ((NodeMetadata × Str × Str × Str) × Str) → Prop
  | ((m, w1, w2, w3), sep) =>
    WfMeta m ∧ WfWs w1 ∧ WfWs w2 ∧ WfWs w3 ∧ '\x7b' ∉ sep

/-- First-occurrence deduplication: the order in which distinct values
first appear in the list. -/
def firstSeen : List Str → List Str
  | [] => []
  | c :: cs => c :: firstSeen (cs.filter (fun x => ¬ x = c))
termination_by l => l.length
decreasing_by
  have := List.length_filter_le (fun x => decide ¬ x = c) cs
  simp only [List.length_cons]
  omega

/-- The bucket a category holds in a grouped association list. -/
def bucket (c : Str) (g : List (Str × List Parameter)) : List Parameter :=
  (lookupStr c g).getD []

/-- The category keys of a grouped association list, in stored order. -/
def keys (g : List (Str × List Parameter)) : List Str := g.map Prod.fst

/-- A header text: separators interleaved with `register_parameter(...);`
blocks, each item holding the block body and the separator after it. -/
def blocksText : List (Str × Str) → Str
  | [] => []
  | (inner, sep) :: rest =>
    str "register_parameter(" ++ (inner ++ (str ");" ++ (sep ++ blocksText rest)))

/-- Well-formedness of a block item: the body does not contain the
terminator `);` and the separator cannot begin a match. -/
abbrev WfBlockItem : Str × Str → Prop
  | (inner, sep) => ¬ (str ");" <:+: inner) ∧ 'r' ∉ sep

/-- The two files the script touches. -/
structure MWFiles where
  cpp : Str
  h : Str
deriving DecidableEq, Repr

/-- The lookahead alternatives `\n(?:auto|void|QWidget) MainWindow::`. -/
def menuAnchors : List Str :=
  [str "\nauto MainWindow::", str "\nvoid MainWindow::",
   str "\nQWidget MainWindow::"]

/-- Does any of the literals start at the head of `s`? -/
def anyLitAt (lits : List Str) (s : Str) : Bool :=
  lits.any (fun l => startsWith l s)

/-- Split `s` at the first position where one of the literals starts (the
literal is not consumed: it is a lookahead). -/
def findBefore (lits : List Str) : Str → Option (Str × Str)
  | [] => none
  | c :: cs =>
    if anyLitAt lits (c :: cs) then some ([], c :: cs)
    else
      match findBefore lits cs with
      | some (a, b) => some (c :: a, b)
      | none => none

/-- The literal head of the `setupMenuBar` method pattern. -/
def setupMenuBarLit : Str := str "auto MainWindow::setupMenuBar() -> void \x7b"

/-- Match the method pattern at the head of `s`: the literal, then the
non-greedy body up to the first following method-definition lookahead. -/
def trySetupAt (s : Str) : Option Str :=
  match dropLit setupMenuBarLit s with
  | none => none
  | some rest =>
    match findBefore menuAnchors rest with
    | some (mid, _) => some (setupMenuBarLit ++ mid)
    | none => none

/-- `re.search` driver for the `setupMenuBar` method pattern. -/
def findSetupMenuBar : Str → Option Str
  | [] => none
  | c :: cs =>
    match trySetupAt (c :: cs) with
    | some m => some m
    | none => findSetupMenuBar cs

/-- Consume a maximal whitespace run that must contain a newline
(`\s*\n\s*` followed by a non-whitespace character). -/
def wsWithNL (s : Str) : Option Str :=
  if '\n' ∈ s.takeWhile pyIsSpace then some (s.dropWhile pyIsSpace) else none

/-- Consume `=+` (at least one equals sign). -/
def eqRun (s : Str) : Option Str :=
  if (s.takeWhile (· = '=')).isEmpty then none
  else some (s.dropWhile (· = '='))

/-- Consume the section banner `// =+\s*\n\s*// <name>\s*\n\s*// =+`. -/
def sectionHdrAt (name : Str) (s : Str) : Option Str :=
  match dropLit (str "// ") s with
  | none => none
  | some s1 =>
    match eqRun s1 with
    | none => none
    | some s2 =>
      match wsWithNL s2 with
      | none => none
      | some s3 =>
        match dropLit (str "// " ++ name) s3 with
        | none => none
        | some s4 =>
          match wsWithNL s4 with
          | none => none
          | some s5 =>
            match dropLit (str "// ") s5 with
            | none => none
            | some s6 => eqRun s6

/-- Consume each literal in turn through its nearest occurrence
(a chain of non-greedy `.*?lit` steps). -/
def consumeTails : List Str → Str → Option Str
  | [], s => some s
  | lit :: lits, s =>
    match splitOnLit lit s with
    | none => none
    | some (_, after) => consumeTails lits after

/-- Match one menu-section pattern at the head of `s`: banner, then the
tail anchors; the value is the matched text. -/
def sectionAt (name : Str) (tails : List Str) (s : Str) : Option Str :=
  match sectionHdrAt name s with
  | none => none
  | some rest =>
    match consumeTails tails rest with
    | none => none
    | some rest2 => some (s.take (s.length - rest2.length))

/-- Match the icon-toolbar pattern (shorter banner) at the head of `s`. -/
def toolbarAt (s : Str) : Option Str :=
  match dropLit (str "// ") s with
  | none => none
  | some s1 =>
    match eqRun s1 with
    | none => none
    | some s2 =>
      match wsWithNL s2 with
      | none => none
      | some s3 =>
        match dropLit (str "// Icon Toolbar") s3 with
        | none => none
        | some s4 =>
          match splitOnLit
              (str "setCornerWidget(icon_toolbar, Qt::TopRightCorner);") s4 with
          | none => none
          | some (_, rest2) => some (s.take (s.length - rest2.length))

/-- `re.search` driver for a section matcher. -/
def searchSection (f : Str → Option Str) : Str → Option Str
  | [] => none
  | c :: cs =>
    match f (c :: cs) with
    | some m => some m
    | none => searchSection f cs

/-- The six section searches of `split_setup_menubar`. -/
def fileSec : Str → Option Str :=
  searchSection (sectionAt (str "File Menu") [str "connect(exitAction", str ";"])

def editSec : Str → Option Str :=
  searchSection (sectionAt (str "Edit Menu") [str "&MainWindow::onInvertSelection);"])

def viewSec : Str → Option Str :=
  searchSection (sectionAt (str "View Menu") [str "// widget creation"])

def graphSec : Str → Option Str :=
  searchSection (sectionAt (str "Graph Menu") [str "&MainWindow::onDisconnectSelected);"])

def helpSec : Str → Option Str :=
  searchSection (sectionAt (str "Help Menu") [str "&MainWindow::onShowKeyboardShortcuts);"])

def toolbarSec : Str → Option Str := searchSection toolbarAt

/-- Python `str.replace` for a non-empty target, all occurrences, left to
right, non-overlapping. -/
def replaceAll (t : Char) (ts repl : Str) : Str → Str
  | [] => []
  | c :: cs =>
    match h : dropLit (t :: ts) (c :: cs) with
    | some rest => repl ++ replaceAll t ts repl rest
    | none => c :: replaceAll t ts repl cs
termination_by s => s.length
decreasing_by
  · have := dropLit_some_length h
    simp at this ⊢
    omega
  · simp

/-- Python `content.replace(target, repl)`; the script's targets are never
empty, and an empty target leaves the content unchanged here. -/
def pyReplace (target repl s : Str) : Str :=
  match target with
  | [] => s
  | t :: ts => replaceAll t ts repl s

/-- The replacement coordinator method text built by the script. -/
def newSetupMenubarText : Str :=
  str "auto MainWindow::setupMenuBar() -> void \x7b\n  setupFileMenu();\n  setupEditMenu();\n  setupViewMenu();\n  setupGraphMenu();\n  setupHelpMenu();\n  setupIconToolbar();\n\x7d\n\n"

/-- One extracted method wrapper built by the script's f-strings. -/
def methodWrapper (mname body : Str) : Str :=
  str "auto MainWindow::" ++ mname ++
    str "() -> void \x7b\n  QMenuBar *menuBar = this->menuBar();\n\n" ++
    body ++ str "\n\x7d\n\n"

/-- `split_setup_menubar`: on any pattern failure the files are returned
unchanged with `false`; only when the method and all six sections match is
the cpp content rewritten. -/
def splitSetupMenubar (fs : MWFiles) : MWFiles × Bool :=
  match findSetupMenuBar fs.cpp with
  | none => (fs, false)
  | some method =>
    match fileSec method with
    | none => (fs, false)
    | some f =>
      match editSec method with
      | none => (fs, false)
      | some e =>
        match viewSec method with
        | none => (fs, false)
        | some v =>
          match graphSec method with
          | none => (fs, false)
          | some g =>
            match helpSec method with
            | none => (fs, false)
            | some hl =>
              match toolbarSec method with
              | none => (fs, false)
              | some t =>
                let newMethods :=
                  newSetupMenubarText ++
                  methodWrapper (str "setupFileMenu") f ++
                  methodWrapper (str "setupEditMenu") e ++
                  methodWrapper (str "setupViewMenu") v ++
                  methodWrapper (str "setupGraphMenu") g ++
                  methodWrapper (str "setupHelpMenu") hl ++
                  methodWrapper (str "setupIconToolbar") t
                ({ fs with cpp := pyReplace method newMethods fs.cpp }, true)

/-- Match `\s+void setupMenuBar\(\);` at the head of `s`. -/
def tryHdrAt (s : Str) : Option Str :=
  if (s.takeWhile pyIsSpace).isEmpty then none
  else
    match dropLit (str "void setupMenuBar();") (s.dropWhile pyIsSpace) with
    | none => none
    | some _ => some (s.takeWhile pyIsSpace ++ str "void setupMenuBar();")

/-- `re.search` driver for the header declaration pattern. -/
def findHdrDecl : Str → Option Str
  | [] => none
  | c :: cs =>
    match tryHdrAt (c :: cs) with
    | some m => some m
    | none => findHdrDecl cs

/-- The declaration block `update_header` writes. -/
def newDeclsText : Str :=
  str "  void setupMenuBar();\n  void setupFileMenu();\n  void setupEditMenu();\n  void setupViewMenu();\n  void setupGraphMenu();\n  void setupHelpMenu();\n  void setupIconToolbar();"

/-- `update_header`: rewrite the header, or fail leaving it unchanged. -/
def updateHeader (fs : MWFiles) : MWFiles × Bool :=
  match findHdrDecl fs.h with
  | none => (fs, false)
  | some g => ({ fs with h := pyReplace g newDeclsText fs.h }, true)

/-- The `__main__` flow: split the source first; the header is rewritten
only when the source rewrite succeeded. -/
def refactorMain (fs : MWFiles) : MWFiles × Bool :=
  match splitSetupMenubar fs with
  | (fs1, false) => (fs1, false)
  | (fs1, true) => updateHeader fs1

/-- Modelled from the spec: the four parameter value kinds of
`ParameterDescriptor` (§3) — integer, floating-point, boolean, text.  The
engine source is missing from the snapshot; floating-point values are
modelled as rationals. -/
inductive PKind where
  | int
  | float
  | bool
  | text
deriving DecidableEq, Repr

/-- Modelled from the spec: a parameter value of one of the four kinds. -/
inductive PValue where
  | int (i : Int)
  | float (q : ℚ)
  | bool (b : Bool)
  | text (s : Str)
deriving DecidableEq, Repr

/-- The kind a value carries. -/
def kindOf : PValue → PKind
  | .int _ => .int
  | .float _ => .float
  | .bool _ => .bool
  | .text _ => .text

/-- The numeric content of a value, when it has one. -/
def numericOf : PValue → Option ℚ
  | .int i => some (i : ℚ)
  | .float q => some q
  | .bool _ => none
  | .text _ => none

/-- Modelled from the spec: a `ParameterDescriptor` (§3) — name, kind,
default, optional numeric range, optional option set, category and
description. -/
structure ParamDescriptor where
  name : Str
  kind : PKind
  dflt : PValue
  range : Option (ℚ × ℚ)
  options : Option (List Str)
  category : Str
  description : Str
deriving DecidableEq

/-- Modelled from the spec: the configuration-error kinds of §4.2/§7. -/
inductive ParamError where
  | TypeMismatch
  | OutOfRange
  | InvalidOption
  | UnknownParameter
deriving DecidableEq, Repr

/-- Modelled from the spec: the parameter-relevant state of one node — its
stored values and its clean/dirty flag (`dirty = true` means Dirty). -/
structure PNode where
  values : List (Str × PValue)
  dirty : Bool
deriving DecidableEq

/-- Look up a descriptor by parameter name. -/
def findDesc : List ParamDescriptor → Str → Option ParamDescriptor
  | [], _ => none
  | d :: rest, name => if d.name = name then some d else findDesc rest name

/-- The value lies outside a declared numeric range. -/
def rangeViolation (d : ParamDescriptor) (v : PValue) : Bool :=
  match numericOf v, d.range with
  | some q, some (lo, hi) => decide (q < lo) || decide (hi < q)
  | _, _ => false

/-- The value is text and misses the declared option set. -/
def optionViolation (d : ParamDescriptor) (v : PValue) : Bool :=
  match v, d.options with
  | .text s, some opts => !(decide (s ∈ opts))
  | _, _ => false

/-- Modelled from the spec (§4.2): validate a value against its
descriptor — kind first, then range, then options. -/
def validateValue (d : ParamDescriptor) (v : PValue) : Option ParamError :=
  if kindOf v ≠ d.kind then some .TypeMismatch
  else if rangeViolation d v then some .OutOfRange
  else if optionViolation d v then some .InvalidOption
  else none

/-- Replace a stored value, or append it when absent. -/
def updateAssoc : List (Str × PValue) → Str → PValue → List (Str × PValue)
  | [], k, v => [(k, v)]
  | (k2, v2) :: rest, k, v =>
    if k2 = k then (k, v) :: rest else (k2, v2) :: updateAssoc rest k v

/-- Modelled from the spec (§4.2): `setParameter` validates, and only on
success replaces the stored value and marks the node dirty; a failure
returns the error and no state change escapes. -/
def setParameter (descs : List ParamDescriptor) (n : PNode) (name : Str)
    (v : PValue) : Except ParamError PNode :=
  match findDesc descs name with
  | none => .error .UnknownParameter
  | some d =>
    match validateValue d v with
    | some e => .error e
    | none => .ok ⟨updateAssoc n.values name v, true⟩

/-- Modelled from the spec (§4.2): `getParameter` is side-effect-free and
returns the stored value, falling back to the descriptor's default. -/
def getParameter (descs : List ParamDescriptor) (n : PNode) (name : Str) :
    Except ParamError PValue :=
  match findDesc descs name with
  | none => .error .UnknownParameter
  | some d => .ok ((lookupStr name n.values).getD d.dflt)

/-- A sample descriptor used to instantiate `c3_set_parameter`. -/
def radiusDesc : ParamDescriptor :=
  ⟨str "radius", .float, .float 1, some (0, 100), none, str "Size", str ""⟩

/-- Modelled from the spec (§3 InputConfig): the three input kinds. -/
inductive InputKind where
  | noInput
  | single
  | multiple
deriving DecidableEq, Repr

/-- Modelled from the spec (§4.3): per-type input configuration — kind,
minimum and maximum connection counts (`-1` the unbounded sentinel), and
the count required for a valid cook. -/
structure NodeInputCfg where
  kind : InputKind
  minConn : Nat
  maxConn : Int
  required : Nat
deriving DecidableEq, Repr

/-- Association-list lookup by node id. -/
def lookupNat {α : Type} (k : Nat) : List (Nat × α) → Option α
  | [] => none
  | (k2, v) :: rest => if k = k2 then some v else lookupNat k rest

/-- Modelled from the spec (§3 Graph, §9 design notes): nodes in an
id-addressed arena, edges as `(node, slot, upstreamNode, upstreamOutput)`
records, and a per-node input configuration. -/
structure CGraph where
  nodes : List Nat
  cfgs : List (Nat × NodeInputCfg)
  edges : List (Nat × Nat × Nat × Nat)
deriving DecidableEq, Repr

/-- Modelled from the spec: the connection-time error kinds of §4.3. -/
inductive ConnectError where
  | SlotOutOfRange
  | CycleDetected
  | UnknownNode
deriving DecidableEq, Repr

/-- `b` is a direct upstream of `a`: some slot of `a` is connected to an
output of `b`. -/
def upstreamOf (edges : List (Nat × Nat × Nat × Nat)) (a b : Nat) : Prop :=
  ∃ s o, (a, s, b, o) ∈ edges

/-- The direct upstream neighbours of `a`, as a finite set. -/
def upNbrs (edges : List (Nat × Nat × Nat × Nat)) (a : Nat) : Finset Nat :=
  ((edges.filter (fun e => e.1 = a)).map (fun e => e.2.2.1)).toFinset

/-- One saturation step of upstream reachability. -/
def upStep (edges : List (Nat × Nat × Nat × Nat)) (S : Finset Nat) :
    Finset Nat :=
  S ∪ S.biUnion (upNbrs edges)

/-- All nodes that can ever enter the saturation from `src`. -/
def upUniverse (edges : List (Nat × Nat × Nat × Nat)) (src : Nat) :
    Finset Nat :=
  insert src (edges.map (fun e => e.2.2.1)).toFinset

/-- The upstream closure of `src`, computed by saturating for as many
steps as the universe has elements. -/
def reachUp (edges : List (Nat × Nat × Nat × Nat)) (src : Nat) :
    Finset Nat :=
  (upStep edges)^[(upUniverse edges src).card] {src}

/-- The prospective edge `upNode → node` would close a directed cycle:
`node` already lies in the upstream closure of `upNode`. -/
def wouldCycle (g : CGraph) (node upNode : Nat) : Bool :=
  decide (node ∈ reachUp g.edges upNode)

/-- Modelled from the spec (§4.3): `connect` performs the cycle check by
reachability before touching the graph, then validates the slot against
the input configuration, and only then inserts the edge record (replacing
any previous record for the same slot).  A failure returns only the
error, so no partially-updated graph can escape.  The spec fixes no order
between the two rejection checks; the cycle check runs first here. -/
def connect (g : CGraph) (node slot upNode upOut : Nat) :
    Except ConnectError CGraph :=
  if wouldCycle g node upNode then .error .CycleDetected
  else
    match lookupNat node g.cfgs with
    | none => .error .UnknownNode
    | some cfg =>
      if cfg.kind = .noInput ∨
          (cfg.maxConn ≠ -1 ∧ (slot : Int) ≥ cfg.maxConn) then
        .error .SlotOutOfRange
      else
        .ok { g with edges :=
          (g.edges.filter (fun e => ¬ (e.1 = node ∧ e.2.1 = slot))) ++
            [(node, slot, upNode, upOut)] }

/-- Modelled from the spec (§4.4): the per-node cook state machine
Dirty → Cooking → Clean. -/
inductive CookStatus where
  | dirty
  | cooking
  | clean
deriving DecidableEq, Repr

/-- Modelled from the spec (§4.4, §9): the evaluation-relevant view of a
graph — connected upstream inputs in slot order, required input count,
and the per-type deterministic compute behavior over an opaque geometry
type `γ`. -/
structure CookGraph (γ : Type) where
  inputs : Nat → List Nat
  required : Nat → Nat
  compute : Nat → List γ → γ

/-- Modelled from the spec (§3 Node): the mutable evaluation state — per
node a status flag, a cached geometry (meaningful only when clean; the
initial all-dirty state carries an arbitrary placeholder), and the
monotonic cook counter kept for memoization verification. -/
structure CookSt (γ : Type) where
  status : Nat → CookStatus
  cache : Nat → γ
  count : Nat → Nat

/-- Cook each node of a list in order with the supplied cook function,
threading state and propagating failure. -/
def cookFold {γ : Type} (f : CookSt γ → Nat → Option (CookSt γ)) :
    CookSt γ → List Nat → Option (CookSt γ)
  | s, [] => some s
  | s, m :: ms =>
    match f s m with
    | none => none
    | some s2 => cookFold f s2 ms

/-- Modelled from the spec (§4.4): the cook algorithm.  A clean node is a
pure cache hit (step 1); a node already cooking fails (`CycleDetected`,
step 3); arity is validated before recursion (`InsufficientInputs`,
step 2); otherwise the node is marked cooking, its connected upstream
nodes are cooked recursively in slot order, the compute behavior runs on
the cooked upstream geometries, and the node transitions to clean with
its counter incremented (steps 4–5).  Failures propagate and leave no
result (`none`); the fuel argument makes the recursion structural and is
irrelevant whenever the call succeeds. -/
def cook {γ : Type} (G : CookGraph γ) : Nat → CookSt γ → Nat → Option (CookSt γ)
  | 0, _, _ => none
  | fuel + 1, s, n =>
    if s.status n = .clean then some s
    else if s.status n = .cooking then none
    else if (G.inputs n).length < G.required n then none
    else
      match cookFold (cook G fuel)
          { s with status := fun m => if m = n then .cooking else s.status m }
          (G.inputs n) with
      | none => none
      | some s2 =>
        some { status := fun m => if m = n then .clean else s2.status m,
               cache := fun m => if m = n then
                 G.compute n ((G.inputs n).map s2.cache) else s2.cache m,
               count := fun m => if m = n then s2.count m + 1 else s2.count m }

/-- The recursive upstream pass of `cook` at a given fuel level. -/
def cookList {γ : Type} (G : CookGraph γ) (fuel : Nat) :
    CookSt γ → List Nat → Option (CookSt γ) :=
  cookFold (cook G fuel)

/-- A concrete diamond graph over `γ = Nat`: node 0 feeds nodes 1 and 2,
which both feed node 3. -/
def diamondG : CookGraph Nat where
  inputs := fun n =>
    if n = 3 then [1, 2] else if n = 1 then [0] else if n = 2 then [0]
    else []
  required := fun n =>
    if n = 3 then 2 else if n = 1 then 1 else if n = 2 then 1 else 0
  compute := fun n gs => n + gs.sum

/-- The all-dirty initial state over `γ = Nat`. -/
def diamondS0 : CookSt Nat where
  status := fun _ => .dirty
  cache := fun _ => 0
  count := fun _ => 0

/-- The per-node effect of a successful cook: a node is either left
untouched (same status, same counter) or bumped exactly once, from dirty
to clean with its counter incremented by one. -/
def Touched {γ : Type} (s s2 : CookSt γ) (m : Nat) : Prop :=
  (s2.status m = s.status m ∧ s2.count m = s.count m) ∨
  (s.status m = .dirty ∧ s2.status m = .clean ∧ s2.count m = s.count m + 1)

/-! ## Theorems -/

/-- C6: for a `MULTIPLE` input configuration the inputs line is the open
range `Accepts {min}+ geometry inputs` exactly when `max_inputs = -1` (the
unbounded sentinel) and the closed range `Accepts {min}-{max} geometry
inputs` for every other max value; `NONE` and `SINGLE` produce their fixed
one-line descriptions. -/
theorem c6_inputs_section (ic : InputConfig) :
    (ic.input_type = str "NONE" →
      inputsSection ic = [str "## Inputs", str "",
        str "This node generates geometry and requires no inputs.", str ""]) ∧
    (ic.input_type = str "SINGLE" →
      inputsSection ic = [str "## Inputs", str "",
        str "- **Input 0**: Geometry to process", str ""]) ∧
    (ic.input_type = str "MULTIPLE" →
      ((inputsSection ic = [str "## Inputs", str "",
          str "- **Inputs**: Accepts " ++ intStr ic.min_inputs ++
            str "+ geometry inputs", str ""] ↔ ic.max_inputs = -1) ∧
       (ic.max_inputs ≠ -1 →
        inputsSection ic = [str "## Inputs", str "",
          str "- **Inputs**: Accepts " ++ intStr ic.min_inputs ++ str "-" ++
            intStr ic.max_inputs ++ str " geometry inputs", str ""]))) := by
  have h1 : (str "MULTIPLE" = str "NONE") = False := by decide
  have h2 : (str "MULTIPLE" = str "SINGLE") = False := by decide
  refine ⟨fun h => ?_, fun h => ?_, fun h => ?_⟩
  · simp [inputsSection, h]
  · have hs : (str "SINGLE" = str "NONE") = False := by decide
    simp [inputsSection, h, hs]
  · constructor
    · constructor
      · intro heq
        by_contra hne
        rw [inputsSection, h] at heq
        simp only [h1, h2, if_false, eq_self_iff_true, if_true, if_neg hne,
          List.cons_append, List.nil_append, List.singleton_append,
          List.cons.injEq, true_and] at heq
        replace heq := heq.1
        simp only [List.append_assoc] at heq
        have h4 := List.append_cancel_left heq
        have h5 := List.append_cancel_left h4
        exact absurd (List.cons.inj h5).1 (by decide)
      · intro hm
        simp [inputsSection, h, hm, h1, h2]
    · intro hne
      rw [inputsSection, h]
      simp only [h1, h2, if_false, eq_self_iff_true, if_true, if_neg hne,
        List.cons_append, List.nil_append, List.singleton_append]

/-- Concrete instantiation of `c6_inputs_section`. -/
theorem c6_inputs_section_witness :
    inputsSection ⟨str "MULTIPLE", 2, -1, 2⟩ =
      [str "## Inputs", str "",
        str "- **Inputs**: Accepts " ++ intStr 2 ++ str "+ geometry inputs",
        str ""] :=
  ((c6_inputs_section ⟨str "MULTIPLE", 2, -1, 2⟩).2.2 rfl).1.mpr rfl

theorem startsWith_head_ne {a b : Char} (h : ¬ a = b) (xs ys : Str) :
    startsWith (a :: xs) (b :: ys) = false := by
  simp [startsWith, h]

theorem paramDetails_no_range (p : Parameter)
    (h : (pyTruthy p.range_min && pyTruthy p.range_max) = false) :
    (paramDetails p).all (fun d => !(startsWith (str "Range: `") d)) = true := by
  rw [List.all_eq_true]
  intro d hd
  unfold paramDetails at hd
  rw [h] at hd
  simp only [Bool.false_eq_true, if_false, List.append_nil, List.nil_append,
    List.mem_append] at hd
  rcases hd with hd | hd
  · split at hd
    · simp only [List.mem_singleton] at hd
      subst hd
      simp only [Bool.not_eq_true']
      exact startsWith_head_ne (show ¬('R' = 'D') by decide) _ _
    · simp at hd
  · split at hd
    · simp only [List.mem_singleton] at hd
      subst hd
      simp only [Bool.not_eq_true']
      exact startsWith_head_ne (show ¬('R' = 'O') by decide) _ _
    · simp at hd

/-- C10: for every recognized parameter block, each omitted fluent field
receives its fixed default: a missing `.label()` yields the Python
`title()`-cased name, a missing `.category()` yields `General`, a missing
`.description()` yields the empty string, and a missing `.range()` yields
`none` for both bounds, so the details bullet carries no Range entry. -/
theorem c10_parameter_defaults (block : Str) (p : Parameter)
    (h : parseParameterBlock block = some p) :
    (searchFluent (str ".label(\"") block = none → p.label = pyTitle p.name) ∧
    (searchFluent (str ".category(\"") block = none →
      p.category = str "General") ∧
    (searchFluent (str ".description(\"") block = none →
      p.description = str "") ∧
    (searchRange block = none →
      p.range_min = none ∧ p.range_max = none ∧
      (paramDetails p).all (fun d => !(startsWith (str "Range: `") d)) = true)
    := by
  unfold parseParameterBlock at h
  rcases hs : searchDefine block with _ | ⟨t, n, df⟩ <;> rw [hs] at h
  · cases h
  · simp only [Option.some.injEq] at h
    subst h
    refine ⟨fun hl => ?_, fun hc => ?_, fun hd => ?_, fun hr => ?_⟩
    · simp [hl]
    · simp [hc]
    · rw [hd]
      rfl
    · refine ⟨by simp [hr], by simp [hr], ?_⟩
      apply paramDetails_no_range
      simp [pyTruthy, hr]

/-- Concrete instantiation of `c10_parameter_defaults` on a block that
declares only a name and default. -/
theorem c10_parameter_defaults_witness :
    parseParameterBlock (str "define_int_parameter(\"seed\", 7)") =
      some ⟨str "seed", str "int", str "Seed", some (str "7"), none, none,
        [], str "General", str ""⟩ ∧
    (str "Seed" : Str) = pyTitle (str "seed") ∧
    (paramDetails ⟨str "seed", str "int", str "Seed", some (str "7"), none,
      none, [], str "General", str ""⟩).all
        (fun d => !(startsWith (str "Range: `") d)) = true := by
  refine ⟨by decide, ?_, ?_⟩
  · have h := c10_parameter_defaults (str "define_int_parameter(\"seed\", 7)")
      ⟨str "seed", str "int", str "Seed", some (str "7"), none, none, [],
        str "General", str ""⟩ (by decide)
    exact h.1 (by decide)
  · have h := c10_parameter_defaults (str "define_int_parameter(\"seed\", 7)")
      ⟨str "seed", str "int", str "Seed", some (str "7"), none, none, [],
        str "General", str ""⟩ (by decide)
    exact (h.2.2.2 (by decide)).2.2

theorem wsDigitsAt_sound {term : Char} {s d rest : Str}
    (h : wsDigitsAt term s = some (d, rest)) :
    s = s.takeWhile pyIsSpace ++ d ++ term :: rest ∧
    d ≠ [] ∧ (∀ c ∈ d, c.isDigit = true) := by
  unfold wsDigitsAt at h
  dsimp only at h
  split at h
  · cases h
  · rename_i hne
    split at h
    · rename_i c rest' heq
      split at h
      · rename_i hterm
        subst hterm
        cases h
        refine ⟨?_, ?_, fun c hc => List.mem_takeWhile_imp hc⟩
        · conv_lhs => rw [← List.takeWhile_append_dropWhile pyIsSpace s]
          rw [List.append_assoc, List.append_cancel_left_eq]
          conv_lhs => rw [← List.takeWhile_append_dropWhile Char.isDigit
            (s.dropWhile pyIsSpace)]
          rw [heq]
        · intro hd
          rw [hd] at hne
          simp at hne
      · cases h
    · cases h

theorem strComma_append (x : Str) : str "," ++ x = ',' :: x := rfl

theorem strRParen_append (x : Str) : str ")" ++ x = ')' :: x := rfl

theorem tryInputCfgAt_sound {s w d1 d2 d3 : Str}
    (h : tryInputCfgAt s = some (w, d1, d2, d3)) :
    ∃ ws1 ws2 ws3 post : Str,
      s = str "InputConfig(InputType::" ++ w ++ str "," ++ ws1 ++ d1 ++
        str "," ++ ws2 ++ d2 ++ str "," ++ ws3 ++ d3 ++ str ")" ++ post ∧
      w ≠ [] ∧ (∀ c ∈ w, isWordChar c = true) ∧
      (∀ c ∈ ws1, pyIsSpace c = true) ∧ d1 ≠ [] ∧
      (∀ c ∈ d1, c.isDigit = true) ∧
      (∀ c ∈ ws2, pyIsSpace c = true) ∧ d2 ≠ [] ∧
      (∀ c ∈ d2, c.isDigit = true) ∧
      (∀ c ∈ ws3, pyIsSpace c = true) ∧ d3 ≠ [] ∧
      (∀ c ∈ d3, c.isDigit = true) := by
  unfold tryInputCfgAt at h
  split at h
  · cases h
  · rename_i s0 hdrop
    dsimp only at h
    split at h
    · cases h
    · rename_i hwne
      split at h
      · rename_i s1 heq1
        split at h
        · rename_i dd1 ss2 hws1
          obtain ⟨e1, dne1, dig1⟩ := wsDigitsAt_sound hws1
          split at h
          · rename_i dd2 ss3 hws2
            obtain ⟨e2, dne2, dig2⟩ := wsDigitsAt_sound hws2
            split at h
            · rename_i dd3 post3 hws3
              obtain ⟨e3, dne3, dig3⟩ := wsDigitsAt_sound hws3
              cases h
              refine ⟨s1.takeWhile pyIsSpace, ss2.takeWhile pyIsSpace,
                ss3.takeWhile pyIsSpace, post3, ?_, ?_,
                fun c hc => List.mem_takeWhile_imp hc,
                fun c hc => List.mem_takeWhile_imp hc, dne1, dig1,
                fun c hc => List.mem_takeWhile_imp hc, dne2, dig2,
                fun c hc => List.mem_takeWhile_imp hc, dne3, dig3⟩
              · rw [dropLit_eq_some] at hdrop
                rw [hdrop]
                have hs0 : s0 = s0.takeWhile isWordChar ++ ',' :: s1 := by
                  conv_lhs => rw [← List.takeWhile_append_dropWhile isWordChar s0]
                  rw [heq1]
                conv_lhs => rw [hs0, e1, e2, e3]
                simp only [List.append_assoc, strComma_append, strRParen_append,
                  List.cons_append]
              · intro hw
                rw [hw] at hwne
                simp at hwne
            · cases h
          · cases h
        · cases h
      · cases h

theorem searchInputCfg_sound :
    ∀ {s : Str} {r}, searchInputCfg s = some r → InputCfgShape s := by
  intro s
  induction s with
  | nil => intro r h; simp [searchInputCfg] at h
  | cons c cs ih =>
    intro r h
    rw [searchInputCfg] at h
    rcases ht : tryInputCfgAt (c :: cs) with _ | ⟨w, d1, d2, d3⟩ <;>
      rw [ht] at h
    · obtain ⟨pre, w, ws1, dd1, ws2, dd2, ws3, dd3, post, heq, hprops⟩ := ih h
      exact ⟨c :: pre, w, ws1, dd1, ws2, dd2, ws3, dd3, post,
        by rw [show c :: cs = c :: (pre ++ str "InputConfig(InputType::" ++ w ++ str "," ++ ws1 ++ dd1 ++ str "," ++ ws2 ++ dd2 ++ str "," ++ ws3 ++ dd3 ++ str ")" ++ post) from by rw [← heq]]; simp, hprops⟩
    · obtain ⟨ws1, ws2, ws3, post, heq, hprops⟩ := tryInputCfgAt_sound ht
      exact ⟨[], w, ws1, d1, ws2, d2, ws3, d3, post, by rw [heq]; simp, hprops⟩

/-- C9: a missing header yields the empty parameter list and the
`UNKNOWN` input configuration; an existing content without any
`InputConfig(InputType::...)` occurrence yields the single-input-modifier
default; the two fallbacks differ. -/
theorem c9_header_fallbacks :
    (∀ (fs : Str → Option Str) (nodeType : Str),
      fs (pyLower nodeType ++ str "_sop.hpp") = none →
      parseSopHeader fs nodeType = ([], ⟨str "UNKNOWN", 0, 0, 0⟩)) ∧
    (∀ content : Str, ¬ InputCfgShape content →
      extractInputConfig content = ⟨str "SINGLE", 1, 1, 1⟩) ∧
    (InputConfig.mk (str "UNKNOWN") 0 0 0 ≠ ⟨str "SINGLE", 1, 1, 1⟩) := by
  refine ⟨fun fs nodeType h => ?_, fun content h => ?_, by decide⟩
  · unfold parseSopHeader
    rw [h]
  · unfold extractInputConfig
    rcases hs : searchInputCfg content with _ | ⟨w, d1, d2, d3⟩
    · rfl
    · exact absurd (searchInputCfg_sound hs) h

/-- Concrete instantiation of `c9_header_fallbacks`. -/
theorem c9_header_fallbacks_witness :
    parseSopHeader (fun _ => none) (str "Sphere") =
      ([], ⟨str "UNKNOWN", 0, 0, 0⟩) ∧
    extractInputConfig (str "hello") = ⟨str "SINGLE", 1, 1, 1⟩ := by
  have hshape : ¬ InputCfgShape (str "hello") := by
    rintro ⟨pre, w, ws1, d1, ws2, d2, ws3, d3, post, heq, -⟩
    have hI : 'I' ∈ str "hello" := by
      rw [heq]
      have h1 : 'I' ∈ str "InputConfig(InputType::" := by decide
      simp [List.mem_append, h1]
    exact absurd hI (by decide)
  exact ⟨c9_header_fallbacks.1 (fun _ => none) (str "Sphere") rfl,
    c9_header_fallbacks.2.1 (str "hello") hshape⟩

theorem strQuoteComma_append (x : Str) : str "\"," ++ x = '"' :: ',' :: x :=
  rfl

theorem wsGroupCloseAt_sound {s g : Str} (h : wsGroupCloseAt s = some g) :
    ∃ rest, s = s.takeWhile (· ≠ ')') ++ ')' :: rest ∧
      s.takeWhile (· ≠ ')') ≠ [] := by
  unfold wsGroupCloseAt at h
  dsimp only at h
  split at h
  · cases h
  · rename_i hne
    split at h
    · rename_i rest' heq
      refine ⟨rest', ?_, ?_⟩
      · conv_lhs => rw [← List.takeWhile_append_dropWhile (· ≠ ')') s]
        rw [heq]
      · intro hu
        rw [hu] at hne
        simp at hne
    · cases h

theorem tryKindAt_sound {s kind r : Str} (h : tryKindAt s = some (kind, r)) :
    (kind = str "int" ∨ kind = str "float" ∨ kind = str "bool" ∨
      kind = str "string") ∧
    s = kind ++ str "_parameter(\"" ++ r := by
  unfold tryKindAt at h
  rcases h1 : dropLit (str "int_parameter(\"") s with _ | r1 <;> rw [h1] at h
  case some =>
    cases h
    exact ⟨Or.inl rfl, by rw [dropLit_eq_some.mp h1]; rfl⟩
  rcases h2 : dropLit (str "float_parameter(\"") s with _ | r2 <;> rw [h2] at h
  case some =>
    cases h
    exact ⟨Or.inr (Or.inl rfl), by rw [dropLit_eq_some.mp h2]; rfl⟩
  rcases h3 : dropLit (str "bool_parameter(\"") s with _ | r3 <;> rw [h3] at h
  case some =>
    cases h
    exact ⟨Or.inr (Or.inr (Or.inl rfl)), by rw [dropLit_eq_some.mp h3]; rfl⟩
  rcases h4 : dropLit (str "string_parameter(\"") s with _ | r4 <;> rw [h4] at h
  case some =>
    cases h
    exact ⟨Or.inr (Or.inr (Or.inr rfl)), by rw [dropLit_eq_some.mp h4]; rfl⟩
  cases h

theorem tryDefineAt_sound {s k n df : Str}
    (h : tryDefineAt s = some (k, n, df)) :
    ∃ mid post : Str,
      s = str "define_" ++ k ++ str "_parameter(\"" ++ n ++ str "\"," ++
        mid ++ str ")" ++ post ∧
      (k = str "int" ∨ k = str "float" ∨ k = str "bool" ∨
        k = str "string") ∧
      n ≠ [] ∧ (∀ c ∈ n, ¬ c = '"') ∧ mid ≠ [] ∧ (∀ c ∈ mid, ¬ c = ')') := by
  unfold tryDefineAt at h
  split at h
  · cases h
  · rename_i s0 hdrop
    split at h
    · cases h
    · rename_i kk s1 hkind
      obtain ⟨hkOk, hs0⟩ := tryKindAt_sound hkind
      dsimp only at h
      split at h
      · cases h
      · rename_i hnne
        split at h
        · rename_i s2 heq2
          split at h
          · rename_i dd hws
            cases h
            obtain ⟨rest, hs2, hune⟩ := wsGroupCloseAt_sound hws
            refine ⟨s2.takeWhile (· ≠ ')'), rest, ?_, hkOk, ?_,
              fun c hc => by simpa using List.mem_takeWhile_imp hc, hune,
              fun c hc => by simpa using List.mem_takeWhile_imp hc⟩
            · rw [dropLit_eq_some] at hdrop
              rw [hdrop, hs0]
              have hs1 : s1 = s1.takeWhile (· ≠ '"') ++ '"' :: ',' :: s2 := by
                conv_lhs => rw [← List.takeWhile_append_dropWhile (· ≠ '"') s1]
                rw [heq2]
              conv_lhs => rw [hs1, hs2]
              simp only [List.append_assoc, strQuoteComma_append,
                strRParen_append, List.cons_append]
            · intro hn
              rw [hn] at hnne
              simp at hnne
          · cases h
        · cases h

theorem searchDefine_sound :
    ∀ {s : Str} {r}, searchDefine s = some r → DefineShape s := by
  intro s
  induction s with
  | nil => intro r h; simp [searchDefine] at h
  | cons c cs ih =>
    intro r h
    rw [searchDefine] at h
    rcases ht : tryDefineAt (c :: cs) with _ | ⟨k, n, df⟩ <;> rw [ht] at h
    · obtain ⟨pre, kind, nm, mid, post, heq, hprops⟩ := ih h
      refine ⟨c :: pre, kind, nm, mid, post, ?_, hprops⟩
      rw [show (c :: cs : Str) = c :: (pre ++ str "define_" ++ kind ++
        str "_parameter(\"" ++ nm ++ str "\"," ++ mid ++ str ")" ++ post)
        from by rw [← heq]]
      simp
    · obtain ⟨mid, post, heq, hprops⟩ := tryDefineAt_sound ht
      exact ⟨[], k, n, mid, post, by rw [heq]; simp, hprops⟩

/-- C7: `_parse_parameter_block` yields a `Parameter` only when the block
declares one of the four kinds through
`define_<kind>_parameter("name", default)`; a block without that shape is
parsed to `none` and hence silently omitted from the extracted list. -/
theorem c7_parse_block_shape (block : Str) :
    (∀ p, parseParameterBlock block = some p → DefineShape block) ∧
    (¬ DefineShape block → parseParameterBlock block = none) := by
  have hsound : ∀ p, parseParameterBlock block = some p → DefineShape block := by
    intro p h
    unfold parseParameterBlock at h
    rcases hs : searchDefine block with _ | ⟨t, n, df⟩ <;> rw [hs] at h
    · cases h
    · exact searchDefine_sound hs
  refine ⟨hsound, fun hshape => ?_⟩
  rcases hp : parseParameterBlock block with _ | p
  · rfl
  · exact absurd (hsound p hp) hshape

/-- Concrete instantiation of `c7_parse_block_shape`: a well-formed block
parses and has the shape; a shapeless block parses to `none`. -/
theorem c7_parse_block_shape_witness :
    DefineShape (str "define_bool_parameter(\"flat\", true)") ∧
    parseParameterBlock (str "hello") = none := by
  have hshape : ¬ DefineShape (str "hello") := by
    rintro ⟨pre, kind, nm, mid, post, heq, -⟩
    have hI : 'd' ∈ str "hello" := by
      rw [heq]
      have h1 : 'd' ∈ str "define_" := by decide
      simp [List.mem_append, h1]
    exact absurd hI (by decide)
  refine ⟨?_, (c7_parse_block_shape (str "hello")).2 hshape⟩
  exact (c7_parse_block_shape (str "define_bool_parameter(\"flat\", true)")).1
    ⟨str "flat", str "bool", str "Flat", some (str "true"), none, none, [],
      str "General", str ""⟩ (by decide)

theorem parseSopFactory_nil : parseSopFactory [] = [] := by
  rw [parseSopFactory]

theorem parseSopFactory_cons_none {c : Char} {cs : Str}
    (h : tryNodeAt (c :: cs) = none) :
    parseSopFactory (c :: cs) = parseSopFactory cs := by
  rw [parseSopFactory, h]

theorem parseSopFactory_cons_some {c : Char} {cs : Str} {m : NodeMetadata}
    {rest : Str} (h : tryNodeAt (c :: cs) = some (m, rest)) :
    parseSopFactory (c :: cs) = m :: parseSopFactory rest := by
  rw [parseSopFactory, h]

theorem strQuote_append (x : Str) : str "\"" ++ x = '"' :: x := rfl

theorem strQuoteBrace_append (x : Str) :
    str "\"\x7d" ++ x = '"' :: '\x7d' :: x := rfl

theorem takeWhile_all_append {p : Char → Bool} {a : Str}
    (ha : ∀ c ∈ a, p c = true) {b : Char} (hb : p b = false) (bs : Str) :
    (a ++ b :: bs).takeWhile p = a := by
  induction a with
  | nil => simp [List.takeWhile, hb]
  | cons x xs ih =>
    simp only [List.cons_append, List.takeWhile_cons,
      ha x (List.mem_cons_self x xs), if_true]
    rw [ih (fun c hc => ha c (List.mem_cons_of_mem x hc))]

theorem dropWhile_all_append {p : Char → Bool} {a : Str}
    (ha : ∀ c ∈ a, p c = true) {b : Char} (hb : p b = false) (bs : Str) :
    (a ++ b :: bs).dropWhile p = b :: bs := by
  induction a with
  | nil => simp [List.dropWhile, hb]
  | cons x xs ih =>
    simp only [List.cons_append, List.dropWhile_cons,
      ha x (List.mem_cons_self x xs), if_true]
    exact ih (fun c hc => ha c (List.mem_cons_of_mem x hc))

theorem quotedAt_entry {w f : Str} (rest : Str)
    (hw : ∀ c ∈ w, pyIsSpace c = true) (hf1 : f ≠ [])
    (hf2 : ∀ c ∈ f, ¬ c = '"') :
    quotedAt (w ++ '"' :: (f ++ '"' :: rest)) = some (f, rest) := by
  unfold quotedAt
  rw [dropWhile_all_append hw (by decide) _]
  dsimp only
  rw [if_pos rfl]
  have hcap : (f ++ '"' :: rest).takeWhile (· ≠ '"') = f :=
    takeWhile_all_append (fun c hc => by simpa using hf2 c hc) (by decide) _
  have hdrop : (f ++ '"' :: rest).dropWhile (· ≠ '"') = '"' :: rest :=
    dropWhile_all_append (fun c hc => by simpa using hf2 c hc) (by decide) _
  rw [hcap, hdrop]
  simp [hf1]

theorem tryNodeAt_entry (m : NodeMetadata) (w1 w2 w3 rest : Str)
    (hm : WfMeta m) (h1 : WfWs w1) (h2 : WfWs w2) (h3 : WfWs w3) :
    tryNodeAt (nodeEntry m w1 w2 w3 ++ rest) = some (m, rest) := by
  obtain ⟨ht1, ht2, ⟨hn1, hn2⟩, ⟨hc1, hc2⟩, ⟨hd1, hd2⟩⟩ := hm
  have hshape : nodeEntry m w1 w2 w3 ++ rest =
      str "\x7bNodeType::" ++ (m.type ++ ',' :: (w1 ++ '"' :: (m.name ++
        '"' :: (',' :: (w2 ++ '"' :: (m.category ++ '"' :: (',' :: (w3 ++
          '"' :: (m.description ++ '"' :: ('\x7d' :: rest)))))))))) := by
    simp only [nodeEntry, List.append_assoc, strComma_append,
      strQuote_append, strQuoteComma_append, strQuoteBrace_append,
      List.cons_append]
  rw [hshape]
  unfold tryNodeAt
  rw [dropLit_self_append]
  dsimp only
  rw [takeWhile_all_append ht2 (by decide) _,
    dropWhile_all_append ht2 (by decide) _,
    if_neg (by simpa [List.isEmpty_iff] using ht1)]
  dsimp only
  rw [if_pos rfl, quotedAt_entry _ h1 hn1 hn2]
  dsimp only
  rw [if_pos rfl, quotedAt_entry _ h2 hc1 hc2]
  dsimp only
  rw [if_pos rfl, quotedAt_entry _ h3 hd1 hd2]
  dsimp only
  rw [if_pos rfl]

theorem tryNodeAt_head_ne {c : Char} (cs : Str) (hc : ¬ '\x7b' = c) :
    tryNodeAt (c :: cs) = none := by
  unfold tryNodeAt
  rw [show dropLit (str "\x7bNodeType::") (c :: cs) = none from by
    simp [str, dropLit, hc]]

theorem parseSopFactory_skip (sep : Str) (rest : Str)
    (h : '\x7b' ∉ sep) :
    parseSopFactory (sep ++ rest) = parseSopFactory rest := by
  induction sep with
  | nil => rfl
  | cons c cs ih =>
    rw [List.cons_append,
      parseSopFactory_cons_none
        (tryNodeAt_head_ne _ (fun hcc => h (hcc ▸ List.mem_cons_self c cs))),
      ih (fun hmem => h (List.mem_cons_of_mem c hmem))]

/-- C4: on a factory source laid out as pattern occurrences interleaved
with match-free separators, `parse_sop_factory` returns exactly one
metadata record per occurrence, fields copied unchanged, in occurrence
order. -/
theorem c4_factory_roundtrip (items : List ((NodeMetadata × Str × Str × Str) × Str))
    (sep0 : Str) (h0 : '\x7b' ∉ sep0) (hitems : ∀ x ∈ items, WfItem x) :
    parseSopFactory (sep0 ++ factoryText items) =
      items.map (fun x => x.1.1) := by
  rw [parseSopFactory_skip sep0 _ h0]
  induction items with
  | nil => exact parseSopFactory_nil
  | cons x rest ih =>
    obtain ⟨⟨m, w1, w2, w3⟩, sep⟩ := x
    obtain ⟨hm, h1, h2, h3, hsep⟩ := hitems _ (List.mem_cons_self _ _)
    have hassoc : factoryText (((m, w1, w2, w3), sep) :: rest) =
        nodeEntry m w1 w2 w3 ++ (sep ++ factoryText rest) := by
      simp [factoryText, List.append_assoc]
    rw [hassoc]
    have hentry := tryNodeAt_entry m w1 w2 w3 (sep ++ factoryText rest) hm h1 h2 h3
    have hne : nodeEntry m w1 w2 w3 ++ (sep ++ factoryText rest) =
        '\x7b' :: (List.drop 1 (nodeEntry m w1 w2 w3) ++ (sep ++ factoryText rest)) := by
      simp [nodeEntry, str]
    rw [hne] at hentry ⊢
    rw [parseSopFactory_cons_some hentry, parseSopFactory_skip sep _ hsep,
      ih (fun y hy => hitems y (List.mem_cons_of_mem _ hy))]
    rfl

/-- Concrete instantiation of `c4_factory_roundtrip` on a two-entry
factory source. -/
theorem c4_factory_roundtrip_witness :
    parseSopFactory (str "nodes = " ++ factoryText
      [((⟨str "Sphere", str "Sphere", str "Generator",
          str "Creates a sphere"⟩, str " ", str " ", str " "), str ",\n  "),
       ((⟨str "Box", str "Box", str "Generator", str "Creates a box"⟩,
          str " ", str " ", str " "), str ";")]) =
      [⟨str "Sphere", str "Sphere", str "Generator", str "Creates a sphere"⟩,
       ⟨str "Box", str "Box", str "Generator", str "Creates a box"⟩] := by
  rw [c4_factory_roundtrip _ _ (by decide) (by decide)]
  rfl

theorem bucket_addToGroup (acc : List (Str × List Parameter)) (p : Parameter)
    (c : Str) :
    bucket c (addToGroup acc p) =
      bucket c acc ++ if c = p.category then [p] else [] := by
  induction acc with
  | nil =>
    by_cases h : c = p.category <;>
      simp [addToGroup, bucket, lookupStr, h]
  | cons x rest ih =>
    obtain ⟨c', ps'⟩ := x
    by_cases h1 : c' = p.category
    · by_cases h2 : c = c'
      · subst h2
        simp [addToGroup, bucket, lookupStr, h1, if_pos h1]
      · simp [addToGroup, bucket, lookupStr, if_pos h1, h2,
          show ¬ c = p.category from h1 ▸ h2]
    · by_cases h2 : c = c'
      · subst h2
        simp [addToGroup, bucket, lookupStr, if_neg h1,
          show ¬ c = p.category from fun hc => h1 (hc.symm ▸ rfl), h1]
      · simp only [addToGroup, if_neg h1, bucket, lookupStr, if_neg h2]
        exact ih

theorem bucket_foldl (ps : List Parameter) :
    ∀ (acc : List (Str × List Parameter)) (c : Str),
      bucket c (ps.foldl addToGroup acc) =
        bucket c acc ++ ps.filter (fun q => c = q.category) := by
  induction ps with
  | nil => intro acc c; simp
  | cons p rest ih =>
    intro acc c
    rw [List.foldl_cons, ih (addToGroup acc p) c, bucket_addToGroup]
    by_cases h : c = p.category <;>
      simp [List.filter_cons, h, List.append_assoc]

theorem keys_addToGroup (acc : List (Str × List Parameter)) (p : Parameter) :
    keys (addToGroup acc p) =
      if p.category ∈ keys acc then keys acc else keys acc ++ [p.category] := by
  induction acc with
  | nil => simp [addToGroup, keys]
  | cons x rest ih =>
    obtain ⟨c', ps'⟩ := x
    by_cases h1 : c' = p.category
    · subst h1
      simp [addToGroup, keys]
    · have hk : keys ((c', ps') :: addToGroup rest p) =
          c' :: keys (addToGroup rest p) := rfl
      have hk2 : keys ((c', ps') :: rest) = c' :: keys rest := rfl
      simp only [addToGroup, if_neg h1, hk, ih, hk2]
      by_cases h2 : p.category ∈ keys rest
      · rw [if_pos h2, if_pos (List.mem_cons_of_mem _ h2)]
      · rw [if_neg h2, if_neg (by
          simp only [List.mem_cons]
          rintro (hc | hm)
          · exact h1 hc.symm
          · exact h2 hm)]
        simp

theorem keys_foldl (ps : List Parameter) :
    ∀ acc : List (Str × List Parameter),
      keys (ps.foldl addToGroup acc) =
        keys acc ++
          firstSeen ((ps.map Parameter.category).filter
            (fun c => ¬ c ∈ keys acc)) := by
  induction ps with
  | nil => intro acc; simp [firstSeen]
  | cons p rest ih =>
    intro acc
    rw [List.foldl_cons, ih (addToGroup acc p), keys_addToGroup]
    by_cases h : p.category ∈ keys acc
    · rw [if_pos h]
      simp only [List.map_cons, List.filter_cons]
      rw [if_neg (by simp [h])]
    · rw [if_neg h]
      simp only [List.map_cons, List.filter_cons]
      rw [if_pos (by simp [h]), firstSeen]
      have hmerge :
          ((rest.map Parameter.category).filter
              (fun c => ¬ c ∈ keys acc)).filter (fun x => ¬ x = p.category) =
          (rest.map Parameter.category).filter
              (fun c => ¬ c ∈ keys acc ++ [p.category]) := by
        rw [List.filter_filter]
        apply List.filter_congr
        intro x _
        by_cases h1 : x = p.category <;> by_cases h2 : x ∈ keys acc <;>
          simp [h1, h2]
      rw [← hmerge]
      simp [List.append_assoc]

theorem groupByCategory_keys (ps : List Parameter) :
    (groupByCategory ps).map Prod.fst = firstSeen (ps.map Parameter.category) := by
  have h := keys_foldl ps []
  simpa [keys, groupByCategory] using h

theorem groupByCategory_bucket (ps : List Parameter) (c : Str) :
    bucket c (groupByCategory ps) = ps.filter (fun q => c = q.category) := by
  have h := bucket_foldl ps [] c
  simpa [bucket, groupByCategory, lookupStr] using h

theorem extractParamBlocks_nil : extractParamBlocks [] = [] := by
  rw [extractParamBlocks]

theorem extractParamBlocks_cons_none {c : Char} {cs : Str}
    (h : dropLit (str "register_parameter(") (c :: cs) = none) :
    extractParamBlocks (c :: cs) = extractParamBlocks cs := by
  rw [extractParamBlocks, h]

theorem extractParamBlocks_cons_some {c : Char} {cs rest inner after : Str}
    (h1 : dropLit (str "register_parameter(") (c :: cs) = some rest)
    (h2 : splitOnLit (str ");") rest = some (inner, after)) :
    extractParamBlocks (c :: cs) = inner :: extractParamBlocks after := by
  rw [extractParamBlocks, h1]
  dsimp only
  rw [h2]

theorem splitOnLit_entry (inner : Str) (rest : Str)
    (h : ¬ (str ");" <:+: inner)) :
    splitOnLit (str ");") (inner ++ (str ");" ++ rest)) = some (inner, rest) := by
  induction inner with
  | nil =>
    rw [List.nil_append,
      show str ");" ++ rest = ')' :: ';' :: rest from rfl,
      splitOnLit.eq_def]
    dsimp only
    rw [show dropLit (str ");") (')' :: ';' :: rest) = some rest from rfl]
  | cons c cs ih =>
    rw [List.cons_append, splitOnLit.eq_def]
    dsimp only
    have hdrop : dropLit (str ");") (c :: (cs ++ (str ");" ++ rest))) = none := by
      rcases hd : dropLit (str ");") (c :: (cs ++ (str ");" ++ rest))) with _ | r
      · rfl
      · exfalso
        rw [dropLit_eq_some] at hd
        rcases cs with _ | ⟨d, cs2⟩
        · simp [str] at hd
        · simp only [str] at hd
          have hc : c = ')' := (List.cons.inj hd).1
          have hd2 : d = ';' := (List.cons.inj (List.cons.inj hd).2).1
          exact h ⟨[], cs2, by rw [hc, hd2]; rfl⟩
    rw [hdrop]
    have hcs : ¬ (str ");" <:+: cs) := by
      rintro ⟨s1, t1, hst⟩
      exact h ⟨c :: s1, t1, by rw [← hst]; rfl⟩
    rw [ih hcs]

theorem extractParamBlocks_skip (sep : Str) (rest : Str) (h : 'r' ∉ sep) :
    extractParamBlocks (sep ++ rest) = extractParamBlocks rest := by
  induction sep with
  | nil => rfl
  | cons c cs ih =>
    rw [List.cons_append,
      extractParamBlocks_cons_none (by
        rcases hd : dropLit (str "register_parameter(") (c :: (cs ++ rest))
          with _ | r
        · rfl
        · exfalso
          rw [dropLit_eq_some] at hd
          have hc : c = 'r' := (List.cons.inj hd).1
          apply h
          rw [hc]
          exact List.mem_cons_self _ _),
      ih (fun hm => h (List.mem_cons_of_mem c hm))]

theorem extractParamBlocks_roundtrip (items : List (Str × Str)) (sep0 : Str)
    (h0 : 'r' ∉ sep0) (hitems : ∀ x ∈ items, WfBlockItem x) :
    extractParamBlocks (sep0 ++ blocksText items) = items.map Prod.fst := by
  rw [extractParamBlocks_skip sep0 _ h0]
  induction items with
  | nil => exact extractParamBlocks_nil
  | cons x rest ih =>
    obtain ⟨inner, sep⟩ := x
    obtain ⟨hinf, hsep⟩ := hitems _ (List.mem_cons_self _ _)
    have hx : blocksText ((inner, sep) :: rest) =
        'r' :: (str "egister_parameter(" ++
          (inner ++ (str ");" ++ (sep ++ blocksText rest)))) := rfl
    rw [hx]
    have h1 : dropLit (str "register_parameter(")
        ('r' :: (str "egister_parameter(" ++
          (inner ++ (str ");" ++ (sep ++ blocksText rest))))) =
        some (inner ++ (str ");" ++ (sep ++ blocksText rest))) :=
      dropLit_self_append _ _
    rw [extractParamBlocks_cons_some h1 (splitOnLit_entry _ _ hinf),
      extractParamBlocks_skip sep _ hsep,
      ih (fun y hy => hitems y (List.mem_cons_of_mem _ hy))]
    rfl

/-- C5: parameters are extracted in block order (round trip over a
rendered header), and the documentation's grouping keeps declaration order
inside each category bucket while buckets appear in first-declaration
order. -/
theorem c5_parameter_order (items : List (Str × Str)) (sep0 : Str)
    (h0 : 'r' ∉ sep0) (hitems : ∀ x ∈ items, WfBlockItem x) :
    extractParameters (sep0 ++ blocksText items) =
      (items.map Prod.fst).filterMap parseParameterBlock ∧
    (∀ ps : List Parameter, (groupByCategory ps).map Prod.fst =
      firstSeen (ps.map Parameter.category)) ∧
    (∀ (ps : List Parameter) (c : Str),
      bucket c (groupByCategory ps) = ps.filter (fun q => c = q.category)) ∧
    (∀ ps : List Parameter, ps ≠ [] →
      paramsSection ps = [str "## Parameters", str ""] ++
        ((groupByCategory ps).map (fun g => categoryLines g.1 g.2)).flatten) := by
  refine ⟨?_, groupByCategory_keys, groupByCategory_bucket, fun ps hps => ?_⟩
  · unfold extractParameters
    rw [extractParamBlocks_roundtrip items sep0 h0 hitems]
  · rw [paramsSection, if_neg (by simpa [List.isEmpty_iff] using hps)]

/-- Concrete instantiation of `c5_parameter_order`: two blocks, the second
unrecognized, extracted in order with the junk block omitted. -/
theorem c5_parameter_order_witness :
    extractParameters (str " " ++ blocksText
      [(str "define_int_parameter(\"a\", 1)", str "\n"),
       (str "junk", str "\n"),
       (str "define_float_parameter(\"b\", 2.5).category(\"Size\")", str "\n")]) =
      [⟨str "a", str "int", str "A", some (str "1"), none, none, [],
        str "General", str ""⟩,
       ⟨str "b", str "float", str "B", some (str "2.5"), none, none, [],
        str "Size", str ""⟩] := by
  rw [(c5_parameter_order
    [(str "define_int_parameter(\"a\", 1)", str "\n"),
     (str "junk", str "\n"),
     (str "define_float_parameter(\"b\", 2.5).category(\"Size\")", str "\n")]
    (str " ") (by decide) (by decide)).1]
  decide

/-- C8: whenever the method pattern or any of the six section patterns
fails to match, `split_setup_menubar` returns `false` with both files
byte-for-byte unchanged; a failed split leaves the whole run unchanged,
and the header content can differ from the input only when the source
rewrite succeeded first. -/
theorem c8_refactor_failure_atomic (fs : MWFiles) :
    (findSetupMenuBar fs.cpp = none → splitSetupMenubar fs = (fs, false)) ∧
    (∀ method, findSetupMenuBar fs.cpp = some method →
      (fileSec method = none ∨ editSec method = none ∨
       viewSec method = none ∨ graphSec method = none ∨
       helpSec method = none ∨ toolbarSec method = none) →
      splitSetupMenubar fs = (fs, false)) ∧
    ((splitSetupMenubar fs).2 = false →
      (splitSetupMenubar fs).1 = fs ∧ refactorMain fs = (fs, false)) ∧
    ((refactorMain fs).1.h ≠ fs.h → (splitSetupMenubar fs).2 = true) := by
  have hfail : ∀ method, findSetupMenuBar fs.cpp = some method →
      (fileSec method = none ∨ editSec method = none ∨
       viewSec method = none ∨ graphSec method = none ∨
       helpSec method = none ∨ toolbarSec method = none) →
      splitSetupMenubar fs = (fs, false) := by
    intro method hm hsec
    unfold splitSetupMenubar
    simp only [hm]
    rcases h1 : fileSec method with _ | f <;> simp only [h1]
    rcases hsec with h | hsec
    · cases h1.symm.trans h
    rcases h2 : editSec method with _ | e <;> simp only [h2]
    rcases hsec with h | hsec
    · cases h2.symm.trans h
    rcases h3 : viewSec method with _ | v <;> simp only [h3]
    rcases hsec with h | hsec
    · cases h3.symm.trans h
    rcases h4 : graphSec method with _ | g <;> simp only [h4]
    rcases hsec with h | hsec
    · cases h4.symm.trans h
    rcases h5 : helpSec method with _ | hlp <;> simp only [h5]
    rcases hsec with h | hsec
    · cases h5.symm.trans h
    rcases h6 : toolbarSec method with _ | t <;> simp only [h6]
    cases h6.symm.trans hsec
  have hsplit_false : (splitSetupMenubar fs).2 = false →
      (splitSetupMenubar fs).1 = fs := by
    intro hf
    unfold splitSetupMenubar at hf ⊢
    rcases h0 : findSetupMenuBar fs.cpp with _ | method <;>
      simp only [h0] at hf ⊢
    rcases h1 : fileSec method with _ | f <;> simp only [h1] at hf ⊢
    rcases h2 : editSec method with _ | e <;> simp only [h2] at hf ⊢
    rcases h3 : viewSec method with _ | v <;> simp only [h3] at hf ⊢
    rcases h4 : graphSec method with _ | g <;> simp only [h4] at hf ⊢
    rcases h5 : helpSec method with _ | hlp <;> simp only [h5] at hf ⊢
    rcases h6 : toolbarSec method with _ | t <;> simp only [h6] at hf ⊢
    simp at hf
  have hmain_false : (splitSetupMenubar fs).2 = false →
      refactorMain fs = (fs, false) := by
    intro hf
    unfold refactorMain
    rcases hs : splitSetupMenubar fs with ⟨fs1, b⟩
    have hb : b = false := by rw [hs] at hf; exact hf
    subst hb
    have hfs1 : fs1 = fs := by
      have := hsplit_false hf
      rw [hs] at this
      exact this
    subst hfs1
    rfl
  refine ⟨?_, hfail, fun hf => ⟨hsplit_false hf, hmain_false hf⟩, ?_⟩
  · intro h
    unfold splitSetupMenubar
    simp only [h]
  · intro hh
    by_contra hb
    have hf : (splitSetupMenubar fs).2 = false := by
      cases hb2 : (splitSetupMenubar fs).2
      · rfl
      · exact absurd hb2 hb
    rw [hmain_false hf] at hh
    exact hh rfl

/-- Concrete instantiation of `c8_refactor_failure_atomic` on a source
without a `setupMenuBar` method. -/
theorem c8_refactor_failure_atomic_witness :
    splitSetupMenubar ⟨str "int x;", str "class MainWindow;"⟩ =
      (⟨str "int x;", str "class MainWindow;"⟩, false) ∧
    refactorMain ⟨str "int x;", str "class MainWindow;"⟩ =
      (⟨str "int x;", str "class MainWindow;"⟩, false) :=
  ⟨(c8_refactor_failure_atomic ⟨str "int x;", str "class MainWindow;"⟩).1
      (by decide),
   ((c8_refactor_failure_atomic ⟨str "int x;", str "class MainWindow;"⟩).2.2.1
      (by decide)).2⟩

theorem lookupStr_updateAssoc (vals : List (Str × PValue)) (k : Str)
    (v : PValue) : lookupStr k (updateAssoc vals k v) = some v := by
  induction vals with
  | nil => simp [updateAssoc, lookupStr]
  | cons kv rest ih =>
    obtain ⟨k2, v2⟩ := kv
    by_cases h : k2 = k
    · simp [updateAssoc, h, lookupStr]
    · simp only [updateAssoc, if_neg h, lookupStr,
        if_neg (show ¬ k = k2 from fun hc => h hc.symm)]
      exact ih

/-- C3: a wrong-kind value fails with `TypeMismatch`, an out-of-range
value with `OutOfRange`, a value outside the option set with
`InvalidOption` — each time without any new node state escaping — and a
value passing validation is stored exactly, so a subsequent `getParameter`
returns it unchanged. -/
theorem c3_set_parameter (descs : List ParamDescriptor) (n : PNode)
    (name : Str) (v : PValue) (d : ParamDescriptor)
    (hd : findDesc descs name = some d) :
    (kindOf v ≠ d.kind → setParameter descs n name v = .error .TypeMismatch) ∧
    (kindOf v = d.kind → rangeViolation d v = true →
      setParameter descs n name v = .error .OutOfRange) ∧
    (kindOf v = d.kind → rangeViolation d v = false →
      optionViolation d v = true →
      setParameter descs n name v = .error .InvalidOption) ∧
    (validateValue d v = none →
      setParameter descs n name v = .ok ⟨updateAssoc n.values name v, true⟩ ∧
      getParameter descs ⟨updateAssoc n.values name v, true⟩ name = .ok v) := by
  refine ⟨fun hk => ?_, fun hk hr => ?_, fun hk hr ho => ?_, fun hv => ?_⟩
  · unfold setParameter
    simp only [hd]
    rw [show validateValue d v = some .TypeMismatch from by
      simp [validateValue, hk]]
  · unfold setParameter
    simp only [hd]
    rw [show validateValue d v = some .OutOfRange from by
      simp [validateValue, hk, hr]]
  · unfold setParameter
    simp only [hd]
    rw [show validateValue d v = some .InvalidOption from by
      simp [validateValue, hk, hr, ho]]
  · constructor
    · unfold setParameter
      simp only [hd, hv]
    · unfold getParameter
      simp only [hd, lookupStr_updateAssoc]
      rfl

/-- Concrete instantiation of `c3_set_parameter`: a float parameter with
range [0, 100]; a wrong-kind set fails, an out-of-range set fails, and a
valid set-then-get returns the exact value. -/
theorem c3_set_parameter_witness :
    setParameter [radiusDesc] ⟨[], false⟩ (str "radius") (.int 3) =
      .error .TypeMismatch ∧
    setParameter [radiusDesc] ⟨[], false⟩ (str "radius") (.float 200) =
      .error .OutOfRange ∧
    getParameter [radiusDesc]
      ⟨updateAssoc [] (str "radius") (.float 5), true⟩ (str "radius") =
      .ok (.float 5) := by
  refine ⟨?_, ?_, ?_⟩
  · exact (c3_set_parameter [radiusDesc] ⟨[], false⟩ (str "radius")
      (.int 3) radiusDesc (by decide)).1 (by decide)
  · exact (c3_set_parameter [radiusDesc] ⟨[], false⟩ (str "radius")
      (.float 200) radiusDesc (by decide)).2.1 (by decide) (by decide)
  · exact ((c3_set_parameter [radiusDesc] ⟨[], false⟩ (str "radius")
      (.float 5) radiusDesc (by decide)).2.2.2 (by decide)).2

theorem subset_upStep (edges : List (Nat × Nat × Nat × Nat))
    (S : Finset Nat) : S ⊆ upStep edges S :=
  Finset.subset_union_left

theorem iterate_upStep_mono (edges : List (Nat × Nat × Nat × Nat))
    (S : Finset Nat) : ∀ k, (upStep edges)^[k] S ⊆ (upStep edges)^[k + 1] S := by
  intro k
  rw [Function.iterate_succ_apply']
  exact subset_upStep edges _

theorem iterate_upStep_le (edges : List (Nat × Nat × Nat × Nat))
    (S : Finset Nat) {j k : Nat} (h : j ≤ k) :
    (upStep edges)^[j] S ⊆ (upStep edges)^[k] S := by
  induction k with
  | zero => rw [Nat.le_zero.mp h]
  | succ k ih =>
    rcases Nat.lt_or_ge j (k + 1) with hk | hk
    · exact (ih (Nat.lt_succ_iff.mp hk)).trans (iterate_upStep_mono edges S k)
    · rw [Nat.le_antisymm h hk]

theorem upNbrs_subset (edges : List (Nat × Nat × Nat × Nat)) (a src : Nat) :
    upNbrs edges a ⊆ upUniverse edges src := by
  intro x hx
  simp only [upNbrs, List.mem_toFinset, List.mem_map, List.mem_filter] at hx
  obtain ⟨e, ⟨he, -⟩, hx⟩ := hx
  simp only [upUniverse, Finset.mem_insert, List.mem_toFinset, List.mem_map]
  exact Or.inr ⟨e, he, hx⟩

theorem iterate_upStep_subset_universe (edges : List (Nat × Nat × Nat × Nat))
    (src : Nat) : ∀ k, (upStep edges)^[k] {src} ⊆ upUniverse edges src := by
  intro k
  induction k with
  | zero =>
    intro x hx
    simp only [Function.iterate_zero_apply, Finset.mem_singleton] at hx
    simp [hx, upUniverse]
  | succ k ih =>
    rw [Function.iterate_succ_apply']
    intro x hx
    simp only [upStep, Finset.mem_union, Finset.mem_biUnion] at hx
    rcases hx with hx | ⟨a, -, hx⟩
    · exact ih hx
    · exact upNbrs_subset edges a src hx

theorem upStep_reachUp_fixed (edges : List (Nat × Nat × Nat × Nat))
    (src : Nat) : upStep edges (reachUp edges src) = reachUp edges src := by
  by_contra hne
  have hstrict : ∀ j < (upUniverse edges src).card,
      upStep edges ((upStep edges)^[j] {src}) ≠ (upStep edges)^[j] {src} := by
    intro j hj hfix
    apply hne
    have hstab : ∀ m, (upStep edges)^[j + m] {src} =
        (upStep edges)^[j] {src} := by
      intro m
      rw [Nat.add_comm, Function.iterate_add_apply]
      exact Function.iterate_fixed hfix m
    have h1 : reachUp edges src = (upStep edges)^[j] {src} := by
      unfold reachUp
      have := hstab ((upUniverse edges src).card - j)
      rwa [Nat.add_sub_cancel' (Nat.le_of_lt hj)] at this
    rw [h1, hfix]
  have hcard : ∀ k, k ≤ (upUniverse edges src).card →
      k + 1 ≤ ((upStep edges)^[k] {src}).card := by
    intro k
    induction k with
    | zero => intro _; simp
    | succ k ih =>
      intro hk
      have hss : (upStep edges)^[k] {src} ⊂ (upStep edges)^[k + 1] {src} := by
        refine ⟨iterate_upStep_mono edges {src} k, fun hsub => ?_⟩
        rw [Function.iterate_succ_apply'] at hsub
        exact hstrict k (Nat.lt_of_succ_le hk)
          (Finset.Subset.antisymm hsub (subset_upStep edges _))
      have h3 := Finset.card_lt_card hss
      have hik := ih (Nat.le_of_succ_le hk)
      omega
  have h1 := hcard (upUniverse edges src).card (Nat.le_refl _)
  have h2 := Finset.card_le_card
    (iterate_upStep_subset_universe edges src (upUniverse edges src).card)
  omega

theorem mem_reachUp_self (edges : List (Nat × Nat × Nat × Nat)) (src : Nat) :
    src ∈ reachUp edges src := by
  have h0 : src ∈ (upStep edges)^[0] {src} := by simp
  exact iterate_upStep_le edges {src} (Nat.zero_le _) h0

theorem reachUp_closed (edges : List (Nat × Nat × Nat × Nat)) (src a b : Nat)
    (ha : a ∈ reachUp edges src) (hab : upstreamOf edges a b) :
    b ∈ reachUp edges src := by
  obtain ⟨s, o, he⟩ := hab
  have hb : b ∈ upNbrs edges a := by
    simp only [upNbrs, List.mem_toFinset, List.mem_map, List.mem_filter]
    exact ⟨(a, s, b, o), ⟨he, by simp⟩, rfl⟩
  have : b ∈ upStep edges (reachUp edges src) := by
    simp only [upStep, Finset.mem_union, Finset.mem_biUnion]
    exact Or.inr ⟨a, ha, hb⟩
  rwa [upStep_reachUp_fixed edges src] at this

theorem reachUp_complete (edges : List (Nat × Nat × Nat × Nat)) (src x : Nat)
    (h : Relation.ReflTransGen (upstreamOf edges) src x) :
    x ∈ reachUp edges src := by
  induction h with
  | refl => exact mem_reachUp_self edges src
  | tail hab hbc ih => exact reachUp_closed edges src _ _ ih hbc

/-- C2: a `connect` call whose new edge would create a directed cycle —
`node` lies in the (reflexive-transitive) upstream closure of
`upstreamNode` — fails with `CycleDetected`; only the error is returned,
so the graph value held by the caller is exactly the one before the call,
and the reachability check happens before any insertion. -/
theorem c2_connect_cycle (g : CGraph) (node slot upNode upOut : Nat)
    (hcycle : Relation.ReflTransGen (upstreamOf g.edges) upNode node) :
    connect g node slot upNode upOut = .error .CycleDetected := by
  unfold connect
  rw [if_pos (show wouldCycle g node upNode = true from by
    unfold wouldCycle
    simpa using reachUp_complete g.edges upNode node hcycle)]

/-- Concrete instantiation of `c2_connect_cycle`: node 0 feeds node 1
already, so connecting 1 into 0 is rejected. -/
theorem c2_connect_cycle_witness :
    connect ⟨[0, 1], [(0, ⟨.single, 1, 1, 1⟩), (1, ⟨.single, 1, 1, 1⟩)],
        [(1, 0, 0, 0)]⟩ 0 0 1 0 = .error .CycleDetected :=
  c2_connect_cycle _ 0 0 1 0
    (Relation.ReflTransGen.single ⟨0, 0, by decide⟩)

theorem touched_trans {γ : Type} {s s1 s2 : CookSt γ} {m : Nat}
    (h1 : Touched s s1 m) (h2 : Touched s1 s2 m) : Touched s s2 m := by
  rcases h1 with ⟨a1, b1⟩ | ⟨a1, b1, c1⟩ <;>
    rcases h2 with ⟨a2, b2⟩ | ⟨a2, b2, c2⟩
  · exact Or.inl ⟨a2.trans a1, b2.trans b1⟩
  · exact Or.inr ⟨a1.symm.trans a2, b2, by rw [c2, b1]⟩
  · exact Or.inr ⟨a1, a2.trans b1, by rw [b2, c1]⟩
  · exact absurd (b1.symm.trans a2) (by decide)

theorem cookFold_touched {γ : Type} {f : CookSt γ → Nat → Option (CookSt γ)}
    (hf : ∀ s n s2, f s n = some s2 → ∀ m, Touched s s2 m) :
    ∀ (l : List Nat) (s s2 : CookSt γ),
      cookFold f s l = some s2 → ∀ m, Touched s s2 m := by
  intro l
  induction l with
  | nil =>
    intro s s2 h m
    cases h
    exact Or.inl ⟨rfl, rfl⟩
  | cons a as ih =>
    intro s s2 h m
    rw [cookFold] at h
    rcases hcook : f s a with _ | s1 <;> simp only [hcook] at h
    · cases h
    · exact touched_trans (hf s a s1 hcook m) (ih s1 s2 h m)

theorem cook_touched {γ : Type} (G : CookGraph γ) :
    ∀ (fuel : Nat) (s : CookSt γ) (n : Nat) (s2 : CookSt γ),
      cook G fuel s n = some s2 → ∀ m, Touched s s2 m := by
  intro fuel
  induction fuel with
  | zero =>
    intro s n s2 h m
    cases h
  | succ fuel ih =>
    intro s n s2 h m
    rw [cook] at h
    split at h
    · rename_i hclean
      cases h
      exact Or.inl ⟨rfl, rfl⟩
    split at h
    · cases h
    split at h
    · cases h
    rename_i hclean hcooking harity
    split at h
    · cases h
    rename_i s1 hlist
    cases h
    have htl := cookFold_touched ih (G.inputs n) _ s1 hlist m
    by_cases hmn : m = n
    · subst hmn
      right
      have hdirty : s.status m = .dirty := by
        cases hst : s.status m
        · rfl
        · exact absurd hst hcooking
        · exact absurd hst hclean
      refine ⟨hdirty, by simp, ?_⟩
      rcases htl with ⟨-, hcnt⟩ | ⟨hst, -, -⟩
      · simp only [CookSt.count] at hcnt ⊢
        simp [hcnt]
      · simp [CookSt.status] at hst
    · rcases htl with ⟨hst, hcnt⟩ | ⟨hst, hclean2, hcnt⟩
      · refine Or.inl ⟨?_, ?_⟩
        · simp only [CookSt.status] at hst ⊢
          rw [if_neg hmn] at hst ⊢
          exact hst
        · simp only [CookSt.count] at hcnt ⊢
          rw [if_neg hmn]
          exact hcnt
      · refine Or.inr ⟨?_, ?_, ?_⟩
        · simp only [CookSt.status] at hst
          rw [if_neg hmn] at hst
          exact hst
        · simp only [CookSt.status]
          rw [if_neg hmn]
          exact hclean2
        · simp only [CookSt.count] at hcnt ⊢
          rw [if_neg hmn]
          exact hcnt

theorem cook_some_clean {γ : Type} (G : CookGraph γ) (fuel : Nat)
    (s : CookSt γ) (n : Nat) (s2 : CookSt γ) (h : cook G fuel s n = some s2) :
    s2.status n = .clean := by
  cases fuel with
  | zero => cases h
  | succ fuel =>
    rw [cook] at h
    split at h
    · rename_i hclean
      cases h
      exact hclean
    split at h
    · cases h
    split at h
    · cases h
    split at h
    · cases h
    rename_i s1 hlist
    cases h
    simp [CookSt.status]

theorem cookFold_members_clean {γ : Type} (G : CookGraph γ) (fuel : Nat) :
    ∀ (l : List Nat) (s s2 : CookSt γ),
      cookFold (cook G fuel) s l = some s2 → ∀ m ∈ l, s2.status m = .clean := by
  intro l
  induction l with
  | nil =>
    intro s s2 h m hm
    cases hm
  | cons a as ih =>
    intro s s2 h m hm
    rw [cookFold] at h
    rcases hcook : cook G fuel s a with _ | s1 <;> simp only [hcook] at h
    · cases h
    · rcases List.mem_cons.mp hm with hma | hmas
      · subst hma
        have ha := cook_some_clean G fuel s m s1 hcook
        rcases cookFold_touched (cook_touched G fuel) as s1 s2 h m with
          ⟨hst, -⟩ | ⟨hst, -, -⟩
        · exact hst.trans ha
        · exact absurd (ha.symm.trans hst) (by decide)
      · exact ih s1 s2 h m hmas

theorem cookFold_clean_inputs {γ : Type} (G : CookGraph γ) (fuel : Nat)
    (hc : ∀ (s : CookSt γ) (n : Nat) (s2 : CookSt γ),
      cook G fuel s n = some s2 → ∀ m, s2.status m = .clean →
        s.status m = .clean ∨ (∀ k ∈ G.inputs m, s2.status k = .clean)) :
    ∀ (l : List Nat) (s s2 : CookSt γ),
      cookFold (cook G fuel) s l = some s2 → ∀ m, s2.status m = .clean →
        s.status m = .clean ∨ (∀ k ∈ G.inputs m, s2.status k = .clean) := by
  intro l
  induction l with
  | nil =>
    intro s s2 h m hm
    cases h
    exact Or.inl hm
  | cons a as ih =>
    intro s s2 h m hm
    rw [cookFold] at h
    rcases hcook : cook G fuel s a with _ | s1 <;> simp only [hcook] at h
    · cases h
    · rcases ih s1 s2 h m hm with h1 | h1
      · rcases hc s a s1 hcook m h1 with h2 | h2
        · exact Or.inl h2
        · refine Or.inr fun k hk => ?_
          rcases cookFold_touched (cook_touched G fuel) as s1 s2 h k with
            ⟨hst, -⟩ | ⟨hst, -, -⟩
          · exact hst.trans (h2 k hk)
          · exact absurd ((h2 k hk).symm.trans hst) (by decide)
      · exact Or.inr h1

theorem cook_clean_inputs {γ : Type} (G : CookGraph γ) :
    ∀ (fuel : Nat) (s : CookSt γ) (n : Nat) (s2 : CookSt γ),
      cook G fuel s n = some s2 → ∀ m, s2.status m = .clean →
        s.status m = .clean ∨ (∀ k ∈ G.inputs m, s2.status k = .clean) := by
  intro fuel
  induction fuel with
  | zero =>
    intro s n s2 h
    cases h
  | succ fuel ih =>
    intro s n s2 h m hm
    rw [cook] at h
    split at h
    · cases h
      exact Or.inl hm
    split at h
    · cases h
    split at h
    · cases h
    rename_i hclean hcooking harity
    split at h
    · cases h
    rename_i s1 hlist
    cases h
    by_cases hmn : m = n
    · subst hmn
      refine Or.inr fun k hk => ?_
      have hk1 := cookFold_members_clean G fuel (G.inputs m) _ s1 hlist k hk
      simp only [CookSt.status]
      by_cases hkm : k = m
      · rw [if_pos hkm]
      · rw [if_neg hkm]
        exact hk1
    · simp only [CookSt.status, if_neg hmn] at hm
      rcases cookFold_clean_inputs G fuel ih (G.inputs n) _ s1 hlist m hm with
        h1 | h1
      · simp only [CookSt.status, if_neg hmn] at h1
        exact Or.inl h1
      · refine Or.inr fun k hk => ?_
        simp only [CookSt.status]
        by_cases hkn : k = n
        · rw [if_pos hkn]
        · rw [if_neg hkn]
          exact h1 k hk

/-- C1: in any graph containing the diamond `A → B`, `A → C`, `B → D`,
`C → D` (membership of the respective input lists), starting from an
all-dirty state with `A`'s counter at zero, a completed `cook D` leaves
`A`'s cook counter at exactly 1: `A`'s compute behavior ran once and its
clean cache served every other path. -/
theorem c1_cook_diamond {γ : Type} (G : CookGraph γ) (A B C D : Nat)
    (hAB : A ∈ G.inputs B) (hAC : A ∈ G.inputs C)
    (hBD : B ∈ G.inputs D) (hCD : C ∈ G.inputs D)
    (s : CookSt γ) (hdirty : ∀ n, s.status n = .dirty) (hA0 : s.count A = 0)
    (fuel : Nat) (s2 : CookSt γ) (h : cook G fuel s D = some s2) :
    s2.count A = 1 := by
  have hDclean : s2.status D = .clean := cook_some_clean G fuel s D s2 h
  rcases cook_clean_inputs G fuel s D s2 h D hDclean with hD | hD
  · rw [hdirty D] at hD
    cases hD
  have hBclean : s2.status B = .clean := hD B hBD
  rcases cook_clean_inputs G fuel s D s2 h B hBclean with hB | hB
  · rw [hdirty B] at hB
    cases hB
  have hAclean : s2.status A = .clean := hB A hAB
  rcases cook_touched G fuel s D s2 h A with ⟨hst, -⟩ | ⟨-, -, hcnt⟩
  · rw [hdirty A] at hst
    rw [hst] at hAclean
    cases hAclean
  · rw [hcnt, hA0]

/-- Concrete instantiation of `c1_cook_diamond` on the four-node diamond:
cooking node 3 leaves node 0's counter at 1. -/
theorem c1_cook_diamond_witness :
    (cook diamondG 10 diamondS0 3).map (fun t => t.count 0) = some 1 := by
  rcases hs : cook diamondG 10 diamondS0 3 with _ | s2
  · have hsome : (cook diamondG 10 diamondS0 3).isSome = true := by decide
    rw [hs] at hsome
    cases hsome
  · show some (s2.count 0) = some 1
    rw [c1_cook_diamond diamondG 0 1 2 3 (by decide) (by decide) (by decide)
      (by decide) diamondS0 (fun n => rfl) rfl 10 s2 hs]
